import Mathlib

/-!
Shallow embedding of the BusTub storage-engine core:
the extendible hash table (src/container/hash/extendible_hash_table.cpp),
the LRU-K replacer (src/buffer/lru_k_replacer.cpp),
the buffer pool manager (src/buffer/buffer_pool_manager_instance.cpp)
and the B+ tree index (src/storage/index/b_plus_tree.cpp).

Conventions:
- C++ machine integers are modelled as Nat (sizes, depths, ids that stay
  non-negative) or Int (page ids, where -1 is INVALID_PAGE_ID).
- Bit operations on directory indices are translated through explicit
  arithmetic: a mask of low bits (x & ((1 << d) - 1)) becomes x % 2 ^ d,
  and clearing a single bit (x & ~(1 << d)) becomes clearBit.
- std::hash of a non-negative int is the identity function (libstdc++),
  so the hash of a Nat key is the key itself; the embedding instantiates
  the template at K = V = Nat, matching ExtendibleHashTable of int, int.
- Recursion that the C++ performs by retrying (the hash-table insert) or
  by walking a linked structure (the B+ tree descent) is given explicit
  fuel; running out of fuel yields none.
- Assertions (BUSTUB_ASSERT) and undefined behaviour abort execution in
  C++; the embedding returns none there.
-/

namespace BusTub

/-! ## Extendible hash table

State of ExtendibleHashTable with K = V = Nat.  C++ buckets are heap
objects shared between directory slots through shared_ptr; the embedding
keeps them in a store list and makes directory slots hold indices into
the store, so aliasing is preserved. -/
structure Bucket where
  depth : Nat
  items : List (Nat × Nat)
  deriving DecidableEq, Repr

/-- the default used when reading outside a list (unreachable in the
states the theorems visit) -/
def defaultBucket : Bucket := { depth := 0, items := [] }

structure ExtendibleHashTable where
  globalDepth : Nat
  bucketSize : Nat
  numBuckets : Nat
  /-- directory: slot index to bucket id (index into store) -/
  dir : List Nat
  store : List Bucket
  deriving DecidableEq, Repr

namespace Bucket

/-- Bucket::Find -/
def find (b : Bucket) (key : Nat) : Option Nat :=
  (b.items.find? (fun e => e.1 == key)).map (fun e => e.2)

/-- the erase performed by Bucket::Remove: drop the first pair with this key -/
def eraseFirst : List (Nat × Nat) → Nat → List (Nat × Nat)
  | [], _ => []
  | e :: es, key => if e.1 == key then es else e :: eraseFirst es key

/-- Bucket::Remove, returning (found, updated bucket) -/
def remove (b : Bucket) (key : Nat) : Bool × Bucket :=
  if b.items.any (fun e => e.1 == key) then
    (true, { b with items := eraseFirst b.items key })
  else
    (false, b)

/-- the update performed by Bucket::Insert when the key exists -/
def updateFirst : List (Nat × Nat) → Nat → Nat → List (Nat × Nat)
  | [], _, _ => []
  | e :: es, key, value =>
    if e.1 == key then (key, value) :: es else e :: updateFirst es key value

/-- Bucket::Exists -/
def exists_ (b : Bucket) (key : Nat) : Bool :=
  b.items.any (fun e => e.1 == key)

/-- Bucket::IsFull (header accessor: the entry list has reached size_) -/
def isFull (b : Bucket) (bucketSize : Nat) : Bool :=
  b.items.length == bucketSize

/-- Bucket::Insert: update if present, refuse if full, else append -/
def insert (b : Bucket) (bucketSize key value : Nat) : Bool × Bucket :=
  if b.exists_ key then
    (true, { b with items := updateFirst b.items key value })
  else if b.items.length == bucketSize then
    (false, b)
  else
    (true, { b with items := b.items ++ [(key, value)] })

end Bucket

namespace ExtendibleHashTable

/-- the constructor: one empty bucket of depth 0, global depth 0 -/
def new (bucketSize : Nat) : ExtendibleHashTable :=
  { globalDepth := 0, bucketSize := bucketSize, numBuckets := 1
    dir := [0], store := [{ depth := 0, items := [] }] }

/-- x & ~(1 << d) on a non-negative index: clear bit d -/
def clearBit (x d : Nat) : Nat :=
  if x.testBit d then x - 2 ^ d else x

/-- IndexOf(key, depth): hash(key) & ((1 << depth) - 1), hash = id on Nat -/
def indexOfDepth (key depth : Nat) : Nat :=
  key % 2 ^ depth

/-- IndexOf(key): mask with the current global depth -/
def indexOf (t : ExtendibleHashTable) (key : Nat) : Nat :=
  indexOfDepth key t.globalDepth

/-- bucket id stored at a directory slot -/
def bidAt (t : ExtendibleHashTable) (slot : Nat) : Nat :=
  t.dir.getD slot 0

/-- bucket object at a directory slot -/
def bucketAt (t : ExtendibleHashTable) (slot : Nat) : Bucket :=
  t.store.getD (t.bidAt slot) defaultBucket

/-- Find -/
def find (t : ExtendibleHashTable) (key : Nat) : Option Nat :=
  (t.bucketAt (t.indexOf key)).find key

/-- Remove -/
def remove (t : ExtendibleHashTable) (key : Nat) : Bool × ExtendibleHashTable :=
  let idx := t.indexOf key
  let bid := t.bidAt idx
  let res := (t.bucketAt idx).remove key
  (res.1, { t with store := t.store.set bid res.2 })

/-- the doubled directory: each new slot at old_size + i aliases the
slot found by clearing the old top bit, as in the doubling loop -/
def doubledDir (dir : List Nat) (gd : Nat) : List Nat :=
  dir ++ (List.range dir.length).map (fun j => dir.getD (clearBit (dir.length + j) gd) 0)

/-- the directory-slot update loop of Insert: the source condition is
(i & ~(1 << local_depth)) == new_bucket_idx with local_depth = ld + 1 -/
def aliasUpdatedDir (dir2 : List Nat) (ld newIdx : Nat) : List Nat :=
  (List.range dir2.length).map
    (fun i => if clearBit i (ld + 1) = newIdx then dir2.getD newIdx 0 else dir2.getD i 0)

/-- the redistribution loop of Insert: move each item whose index at
depth ld + 1 differs from idx from the old bucket to its new bucket -/
def redistribute (bucketSize ld idx : Nat) (dir3 : List Nat) (items : List (Nat × Nat))
    (store3 : List Bucket) : List Bucket :=
  items.foldl
    (fun (st : List Bucket) e =>
      if indexOfDepth e.1 (ld + 1) ≠ idx then
        let srcBid := dir3.getD idx 0
        let src := st.getD srcBid defaultBucket
        let st1 := st.set srcBid (src.remove e.1).2
        let dstBid := dir3.getD (indexOfDepth e.1 (ld + 1)) 0
        let dst := st1.getD dstBid defaultBucket
        st1.set dstBid (dst.insert bucketSize e.1 e.2).2
      else st)
    store3

/-- the allocation, depth increment, directory-slot update and
redistribution performed by the IsFull branch of Insert once the
directory has (possibly) been doubled: t1 is the post-doubling table,
ld the local depth read before the split and idx the recomputed index
of the key at depth ld -/
def splitCore (t1 : ExtendibleHashTable) (bs numB ld idx : Nat) : ExtendibleHashTable :=
  -- allocate the new bucket with depth ld + 1 at slot idx | (1 << ld)
  let newIdx := idx ||| 2 ^ ld
  let store2 := t1.store ++ [{ depth := ld + 1, items := [] }]
  let dir2 := t1.dir.set newIdx t1.store.length
  -- dir_[idx]->IncrementDepth()
  let oldBid := dir2.getD idx 0
  let oldBucket := store2.getD oldBid defaultBucket
  let store3 := store2.set oldBid { oldBucket with depth := oldBucket.depth + 1 }
  let dir3 := aliasUpdatedDir dir2 ld newIdx
  -- redistribute the items of dir_[idx] using depth ld + 1
  let items := (store3.getD (dir3.getD idx 0) defaultBucket).items
  { globalDepth := t1.globalDepth, bucketSize := bs
    numBuckets := numB + 1, dir := dir3
    store := redistribute bs ld idx dir3 items store3 }

/-- the body of the IsFull branch of Insert: directory doubling (when
local depth equals global depth) followed by splitCore; insert below
then retries. -/
def splitStep (t : ExtendibleHashTable) (key : Nat) : ExtendibleHashTable :=
  let idx0 := t.indexOf key
  let ld := (t.bucketAt idx0).depth
  let t1 : ExtendibleHashTable :=
    if ld = t.globalDepth then
      { t with dir := doubledDir t.dir t.globalDepth, globalDepth := t.globalDepth + 1 }
    else t
  let idx := if ld = t.globalDepth then idx0 else indexOfDepth key ld
  splitCore t1 t.bucketSize t.numBuckets ld idx

/-- Insert: split-and-retry while the target bucket is full, with fuel
bounding the number of retries; the non-full case delegates to
Bucket::Insert (which also handles the update of an existing key). -/
def insert : Nat → ExtendibleHashTable → Nat → Nat → Option ExtendibleHashTable
  | 0, _, _, _ => none
  | fuel + 1, t, key, value =>
    let idx := t.indexOf key
    if (t.bucketAt idx).isFull t.bucketSize then
      insert fuel (t.splitStep key) key value
    else
      let bid := t.bidAt idx
      some { t with store := t.store.set bid ((t.bucketAt idx).insert t.bucketSize key value).2 }

/-- run a list of insertions, 64 retries of fuel each -/
def runInserts (t : ExtendibleHashTable) : List (Nat × Nat) → Option ExtendibleHashTable
  | [] => some t
  | (k, v) :: rest => match insert 64 t k v with
    | none => none
    | some t1 => runInserts t1 rest

/-- The directory invariants of the specification: the directory length
is 1 <<< global depth, every local depth is at most the global depth, and
any two slots that agree on the low local-depth bits of the first slot
reference the same bucket. -/
def invariantHolds (t : ExtendibleHashTable) : Bool :=
  (t.dir.length == 2 ^ t.globalDepth) &&
  ((List.range t.dir.length).all (fun i => (t.bucketAt i).depth ≤ t.globalDepth)) &&
  ((List.range t.dir.length).all (fun i =>
    (List.range t.dir.length).all (fun j =>
      (i % 2 ^ (t.bucketAt i).depth != j % 2 ^ (t.bucketAt i).depth) ||
      (t.bidAt i == t.bidAt j))))

/-- insertion sequence driving the global depth to 4 while the bucket of
the odd keys keeps local depth 1 (bucket capacity 2) -/
def ehtSeqA : List (Nat × Nat) := [(1, 10), (11, 20), (0, 30), (2, 40), (4, 50), (8, 60), (16, 70)]

/-- insertion sequence with bucket capacity 1 reaching global depth 4
with the odd-keys bucket split once (stale slots 11 and 15 remain) -/
def ehtSeqB : List (Nat × Nat) := [(0, 0), (2, 20), (4, 40), (8, 80), (1, 10), (3, 30)]

/-- the state reached by ehtSeqB on a table of bucket capacity 1 -/
def ehtLoopState : ExtendibleHashTable := (runInserts (new 1) ehtSeqB).getD (new 1)

/-- the loop invariant of the non-terminating Insert(11): directory slot
11 references a full bucket of local depth 2 that is distinct from the
bucket at slot 3, and every key in the slot-3 bucket rehashes to index 3
at depth 3, so each retry splits the slot-3 bucket again and never
updates slot 11. -/
def LoopInv (t : ExtendibleHashTable) : Prop :=
  t.globalDepth = 4 ∧ t.bucketSize = 1 ∧ t.dir.length = 16 ∧
  t.bidAt 11 ≠ t.bidAt 3 ∧ t.bidAt 11 < t.store.length ∧ t.bidAt 3 < t.store.length ∧
  (t.bucketAt 11).depth = 2 ∧ (t.bucketAt 11).items.length = 1 ∧
  (∀ e ∈ (t.bucketAt 3).items, e.1 % 8 = 3)

instance (t : ExtendibleHashTable) : Decidable (LoopInv t) := by
  unfold LoopInv; infer_instance

end ExtendibleHashTable

/-! ## LRU-K replacer

State of LRUKReplacer.  frame_map_ holds the evictable frames,
non_evict_frames_ the non-evictable ones; both are std::map from frame
id to a Frame whose payload is the list of recorded timestamps in
arrival order, modelled as association lists kept sorted by frame id.
current_timestamp_ advances on every operation. -/
structure LRUKReplacer where
  replacerSize : Nat
  k : Nat
  currentTimestamp : Nat
  currSize : Nat
  frameMap : List (Nat × List Nat)
  nonEvictFrames : List (Nat × List Nat)
  deriving DecidableEq, Repr

namespace LRUKReplacer

/-- map lookup by frame id -/
def lookupFrame (l : List (Nat × List Nat)) (fid : Nat) : Option (List Nat) :=
  (l.find? (fun e => e.1 == fid)).map (fun e => e.2)

/-- map insertion keeping ids sorted (std::map order) -/
def insertSorted : List (Nat × List Nat) → Nat × List Nat → List (Nat × List Nat)
  | [], e => [e]
  | x :: xs, e => if e.1 < x.1 then e :: x :: xs else x :: insertSorted xs e

/-- Frame::RecordAccess on the frame with this id -/
def appendTs (l : List (Nat × List Nat)) (fid ts : Nat) : List (Nat × List Nat) :=
  l.map (fun e => if e.1 == fid then (e.1, e.2 ++ [ts]) else e)

/-- map erase by frame id -/
def eraseFrame : List (Nat × List Nat) → Nat → List (Nat × List Nat)
  | [], _ => []
  | x :: xs, fid => if x.1 == fid then xs else x :: eraseFrame xs fid

/-- RecordAccess; none models the BUSTUB_ASSERT on fid > num_frames.
An untracked frame is inserted into frame_map_ (the evictable map) with
curr_size_ incremented, then receives the current timestamp. -/
def recordAccess (r : LRUKReplacer) (fid : Nat) : Option LRUKReplacer :=
  if r.replacerSize < fid then none
  else
    let cur := r.currentTimestamp + 1
    if (lookupFrame r.frameMap fid).isNone && (lookupFrame r.nonEvictFrames fid).isNone then
      some { r with
        currentTimestamp := cur, currSize := r.currSize + 1,
        frameMap := appendTs (insertSorted r.frameMap (fid, [])) fid cur }
    else if (lookupFrame r.frameMap fid).isSome then
      some { r with currentTimestamp := cur, frameMap := appendTs r.frameMap fid cur }
    else
      some { r with currentTimestamp := cur, nonEvictFrames := appendTs r.nonEvictFrames fid cur }

/-- SetEvictable -/
def setEvictable (r : LRUKReplacer) (fid : Nat) (se : Bool) : Option LRUKReplacer :=
  if r.replacerSize < fid then none
  else
    let cur := r.currentTimestamp + 1
    if (lookupFrame r.frameMap fid).isSome && (se == false) then
      some { r with
        currentTimestamp := cur,
        frameMap := eraseFrame r.frameMap fid,
        nonEvictFrames :=
          insertSorted r.nonEvictFrames (fid, (lookupFrame r.frameMap fid).getD []),
        currSize := r.currSize - 1 }
    else if (lookupFrame r.nonEvictFrames fid).isSome && (se == true) then
      some { r with
        currentTimestamp := cur,
        frameMap := insertSorted r.frameMap (fid, (lookupFrame r.nonEvictFrames fid).getD []),
        nonEvictFrames := eraseFrame r.nonEvictFrames fid,
        currSize := r.currSize + 1 }
    else
      some { r with currentTimestamp := cur }

/-- Remove; none models the assert on a non-evictable frame -/
def removeFrame (r : LRUKReplacer) (fid : Nat) : Option LRUKReplacer :=
  if r.replacerSize < fid then none
  else if (lookupFrame r.nonEvictFrames fid).isSome then none
  else
    let cur := r.currentTimestamp + 1
    if (lookupFrame r.frameMap fid).isSome then
      some { r with
        currentTimestamp := cur,
        frameMap := eraseFrame r.frameMap fid, currSize := r.currSize - 1 }
    else
      some { r with currentTimestamp := cur }

/-- Size -/
def size (r : LRUKReplacer) : Nat := r.currSize

/-- Frame::FindKthPreviousTimestamp: the k-th element from the end
(the reverse iterator advanced k - 1 times) -/
def findKthPreviousTimestamp (ts : List Nat) (k : Nat) : Nat :=
  ts.reverse.getD (k - 1) 0

/-- the loop body of FindEarliestFrame: earliest_timestamp starts at
INT32_MAX and a strictly smaller first recorded timestamp takes over -/
def earliestBody (acc : Option Nat × Nat) (f : Nat × List Nat) : Option Nat × Nat :=
  if f.2.headD 0 < acc.2 then (some f.1, f.2.headD 0) else acc

/-- FindEarliestFrame: scan for the frame whose first recorded
timestamp is smallest; none models the uninitialised frame id when no
first timestamp beats INT32_MAX (the assert on earliest_frame) -/
def findEarliestFrame (frames : List (Nat × List Nat)) : Option Nat :=
  (frames.foldl earliestBody (none, 2147483647)).1

/-- the loop body of FindEvictFrame: a frame with fewer than k accesses
joins largest_k_frames; otherwise its k-distance
current_timestamp - kth-previous competes for the running maximum -/
def evictScanBody (k cur : Nat) (acc : Nat × Option Nat × List (Nat × List Nat))
    (f : Nat × List Nat) : Nat × Option Nat × List (Nat × List Nat) :=
  if f.2.length < k then (acc.1, acc.2.1, acc.2.2 ++ [f])
  else
    let kd := cur - findKthPreviousTimestamp f.2 k
    if acc.1 < kd then (kd, some f.1, acc.2.2) else acc

/-- FindEvictFrame: one scan collecting the frames with fewer than k
accesses (in map order) while tracking the largest k-distance among the
others; then prefer the less-than-k group -/
def findEvictFrame (r : LRUKReplacer) : Option Nat :=
  let scan := r.frameMap.foldl (evictScanBody r.k r.currentTimestamp) (0, none, [])
  if scan.2.2.length == 1 then some (scan.2.2.getD 0 (0, [])).1
  else if 1 < scan.2.2.length then findEarliestFrame scan.2.2
  else scan.2.1

/-- Evict: advance the timestamp, fail on an empty evictable map, else
select a victim, erase it and decrement curr_size_; the outer none
models the undefined behaviour of erasing through the uninitialised
frame id pointer -/
def evict (r : LRUKReplacer) : Option (Option Nat × LRUKReplacer) :=
  let r1 := { r with currentTimestamp := r.currentTimestamp + 1 }
  if r1.frameMap.length == 0 then some (none, r1)
  else
    match findEvictFrame r1 with
    | none => none
    | some fid =>
      some (some fid, { r1 with
        frameMap := eraseFrame r1.frameMap fid,
        currSize := r1.currSize - 1 })

/-- the claim's group A: evictable frames with fewer than k recorded
accesses (stated from the specification's words, for comparison with
the code) -/
def groupA (r : LRUKReplacer) : List (Nat × List Nat) :=
  r.frameMap.filter (fun f => f.2.length < r.k)

end LRUKReplacer

/-! ## Buffer pool manager

State of BufferPoolManagerInstance: the frame array, the page table (an
ExtendibleHashTable from page id to frame id), the replacer, the free
list and the next-page-id counter.  Disk writes are recorded as a log of
(page id, data) pairs; the page byte buffer is abstracted to one Nat. -/
/-- a Page object: the backing PageId (-1 = INVALID_PAGE_ID), the pin
count, the dirty flag and the (abstracted) data buffer -/
structure Page where
  pageId : Int
  pinCount : Nat
  isDirty : Bool
  data : Nat
  deriving DecidableEq, Repr

/-- the all-zero page produced by ResetPage -/
def resetPage : Page := { pageId := -1, pinCount := 0, isDirty := false, data := 0 }

structure BufferPoolManagerInstance where
  poolSize : Nat
  pages : List Page
  pageTable : ExtendibleHashTable
  replacer : LRUKReplacer
  freeList : List Nat
  nextPageId : Nat
  /-- log of WritePage calls to the disk manager -/
  disk : List (Nat × Nat)
  /-- Modelled from the spec: DeallocatePage lives in a header outside
  src; the spec says DeletePage deallocates the PageId, recorded here -/
  deallocated : List Nat
  deriving DecidableEq, Repr

namespace BufferPoolManagerInstance

/-- UnpinPgImp: false when the page is not resident or its pin count is
0; else OR the dirty flag, decrement the pin count, and at zero mark the
frame evictable and flush-and-clear if dirty.  none models the replacer
assert. -/
def unpinPage (b : BufferPoolManagerInstance) (pid : Nat) (isDirty : Bool) :
    Option (Bool × BufferPoolManagerInstance) :=
  match ExtendibleHashTable.find b.pageTable pid with
  | none => some (false, b)
  | some fid =>
    if (b.pages.getD fid resetPage).pinCount = 0 then some (false, b)
    else
      let pg := b.pages.getD fid resetPage
      let pg1 : Page := { pg with isDirty := pg.isDirty || isDirty, pinCount := pg.pinCount - 1 }
      if pg1.pinCount = 0 then
        (LRUKReplacer.setEvictable b.replacer fid true).map (fun rep =>
          if pg1.isDirty then
            (true, { b with
              pages := b.pages.set fid { pg1 with isDirty := false }
              replacer := rep
              disk := b.disk ++ [(pid, pg1.data)] })
          else
            (true, { b with pages := b.pages.set fid pg1, replacer := rep }))
      else
        some (true, { b with pages := b.pages.set fid pg1 })

/-- DeletePgImp: true when not resident; false when pinned; else remove
the frame from the replacer and the page table, push it onto the free
list, zero it and deallocate the PageId.  none models the replacer
assert on a non-evictable frame. -/
def deletePage (b : BufferPoolManagerInstance) (pid : Nat) :
    Option (Bool × BufferPoolManagerInstance) :=
  match ExtendibleHashTable.find b.pageTable pid with
  | none => some (true, b)
  | some fid =>
    if (b.pages.getD fid resetPage).pinCount ≠ 0 then some (false, b)
    else
      (LRUKReplacer.removeFrame b.replacer fid).map (fun rep =>
        (true, { b with
          replacer := rep
          pageTable := (ExtendibleHashTable.remove b.pageTable pid).2
          freeList := b.freeList ++ [fid]
          pages := b.pages.set fid resetPage
          deallocated := b.deallocated ++ [pid] }))

end BufferPoolManagerInstance

namespace ExtendibleHashTable

/-- all (key, value) pairs stored anywhere in the table -/
def entries (t : ExtendibleHashTable) : List (Nat × Nat) :=
  (t.store.map Bucket.items).flatten

/-- structural well-formedness of a table: the directory has 2 ^ gd
slots, every slot references a live bucket, and no bucket holds the same
key twice.  All reachable tables satisfy this. -/
def ehtWF (t : ExtendibleHashTable) : Prop :=
  t.dir.length = 2 ^ t.globalDepth ∧
  (∀ i ∈ t.dir, i < t.store.length) ∧
  (∀ b ∈ t.store, (b.items.map Prod.fst).Nodup)

instance (t : ExtendibleHashTable) : Decidable (ehtWF t) := by
  unfold ehtWF; infer_instance

end ExtendibleHashTable

namespace BufferPoolManagerInstance

/-- well-formedness of a buffer pool state: the page table is
structurally sound and every resident mapping names a frame inside the
pool and inside the replacer universe, tracked on the side of the
replacer matching its pin count; the replacer maps carry distinct ids.
All reachable buffer pool states satisfy this. -/
def wf (b : BufferPoolManagerInstance) : Prop :=
  ExtendibleHashTable.ehtWF b.pageTable ∧
  (∀ e ∈ ExtendibleHashTable.entries b.pageTable,
    e.2 < b.pages.length ∧ e.2 ≤ b.replacer.replacerSize ∧
    ((b.pages.getD e.2 resetPage).pinCount = 0 →
      LRUKReplacer.lookupFrame b.replacer.nonEvictFrames e.2 = none) ∧
    ((b.pages.getD e.2 resetPage).pinCount ≠ 0 →
      (LRUKReplacer.lookupFrame b.replacer.nonEvictFrames e.2).isSome)) ∧
  (b.replacer.frameMap.map Prod.fst).Nodup

instance (b : BufferPoolManagerInstance) : Decidable (wf b) := by
  unfold wf; infer_instance

/-- a concrete pool: one frame, page 7 resident unpinned in frame 0 -/
def bpmDemo : BufferPoolManagerInstance :=
  { poolSize := 1
    pages := [{ pageId := 7, pinCount := 0, isDirty := false, data := 3 }]
    pageTable := ⟨0, 4, 1, [0], [⟨0, [(7, 0)]⟩]⟩
    replacer := ⟨1, 2, 5, 1, [(0, [1])], []⟩
    freeList := []
    nextPageId := 8
    disk := []
    deallocated := [] }

/-- a concrete pool: one frame, page 5 resident in frame 0 with pin
count 1, clean, while the replacer tracks frame 0 as non-evictable -/
def bpmDirtyDemo : BufferPoolManagerInstance :=
  { poolSize := 1
    pages := [{ pageId := 5, pinCount := 1, isDirty := false, data := 9 }]
    pageTable := ⟨0, 4, 1, [0], [⟨0, [(5, 0)]⟩]⟩
    replacer := ⟨1, 2, 3, 0, [], [(0, [1])]⟩
    freeList := []
    nextPageId := 6
    disk := []
    deallocated := [] }

end BufferPoolManagerInstance

/-! ## B+ tree index

State of BPlusTree.  Pages live in a store keyed by page id; the buffer
pool is abstracted to a pin-count table (FetchPage and NewPage pin,
UnpinPage decrements when the count is positive, exactly as UnpinPgImp
does), since the tree claims concern page contents and pin balance and
pages are never evicted during an operation.  A page's entry array is
kept at its full capacity, stale slots included, because the source
reads one slot past the live entries in several places.  KeyType is Int
with the comparator returning -1, 0 or 1; ValueType (RID) is Nat.
Roots are initialised with parent_page_id equal to their own page id
(Init is called with page_id twice), so IsRootPage is that equality;
IsFull on an internal page compares its size with its max size.  The
leaf page accessors (Init, KeyAt, ValueAt, SetMappingAt, SetNextPageId,
GetData, SetSize, IncreaseSize) mirror the internal-page ones of
src/page/b_plus_tree_internal_page.cpp: plain reads and writes of the
header fields and the entry array, plus the next-leaf pointer. -/

namespace BPlusTree

/-- the key comparator: -1, 0 or 1 -/
def comparator (a b : Int) : Int :=
  if a < b then -1 else if a = b then 0 else 1

structure LeafNode where
  pageId : Int
  parentPageId : Int
  size : Nat
  maxSize : Nat
  nextPageId : Int
  entries : List (Int × Nat)
  deriving DecidableEq, Repr

structure InternalNode where
  pageId : Int
  parentPageId : Int
  size : Nat
  maxSize : Nat
  entries : List (Int × Int)
  deriving DecidableEq, Repr

inductive BPTPage where
  | leaf : LeafNode → BPTPage
  | internal : InternalNode → BPTPage
  deriving DecidableEq, Repr

structure TreeState where
  rootPageId : Int
  leafMaxSize : Nat
  internalMaxSize : Nat
  store : List (Int × BPTPage)
  pins : List (Int × Nat)
  nextPageId : Int
  deriving DecidableEq, Repr

/-- read a page from the store -/
def getPage (t : TreeState) (pid : Int) : Option BPTPage :=
  (t.store.find? (fun e => e.1 == pid)).map (fun e => e.2)

def storeWrite : List (Int × BPTPage) → Int → BPTPage → List (Int × BPTPage)
  | [], pid, pg => [(pid, pg)]
  | e :: es, pid, pg => if e.1 == pid then (pid, pg) :: es else e :: storeWrite es pid pg

/-- write a page back (pages are mutated in place through their frame) -/
def writePage (t : TreeState) (pid : Int) (pg : BPTPage) : TreeState :=
  { t with store := storeWrite t.store pid pg }

/-- current pin count of a page -/
def pinOf (t : TreeState) (pid : Int) : Nat :=
  ((t.pins.find? (fun e => e.1 == pid)).map (fun e => e.2)).getD 0

def pinsBump : List (Int × Nat) → Int → List (Int × Nat)
  | [], pid => [(pid, 1)]
  | e :: es, pid => if e.1 == pid then (e.1, e.2 + 1) :: es else e :: pinsBump es pid

def pinsDec : List (Int × Nat) → Int → List (Int × Nat)
  | [], _ => []
  | e :: es, pid => if e.1 == pid then (e.1, e.2 - 1) :: es else e :: pinsDec es pid

/-- FetchPage on the abstracted buffer pool: pin the page -/
def fetchPage (t : TreeState) (pid : Int) : TreeState :=
  { t with pins := pinsBump t.pins pid }

/-- UnpinPage on the abstracted buffer pool: decrement when positive
(UnpinPgImp returns false and changes nothing at pin count zero) -/
def unpinPage (t : TreeState) (pid : Int) : TreeState :=
  if pinOf t pid = 0 then t else { t with pins := pinsDec t.pins pid }

/-- NewPage: allocate the next page id and pin the fresh frame once -/
def newPage (t : TreeState) : Int × TreeState :=
  (t.nextPageId,
    { t with nextPageId := t.nextPageId + 1, pins := pinsBump t.pins t.nextPageId })

/-- UpdateRootPageId: fetch the header page (page id 0), write the root
record into it (record contents are outside this embedding), unpin it -/
def updateRootPageId (t : TreeState) : TreeState :=
  unpinPage (fetchPage t 0) 0

/-- Ceiling: half of sz rounded up, written as the source writes it -/
def ceiling (sz : Nat) : Nat :=
  if sz % 2 == 0 then sz / 2 else sz / 2 + 1

/-- counter-driven core of scanFrom; the counter starts at sz - i, so
it never runs out before i reaches sz -/
def scanFromGo (sz : Nat) (p : Nat → Bool) : Nat → Nat → Nat
  | _, 0 => sz
  | i, n + 1 => if i < sz then (if p i then i else scanFromGo sz p (i + 1) n) else sz

/-- first index i of the interval from i0 to sz with p i, else sz;
the shape of every scanning while-loop in the source -/
def scanFrom (sz : Nat) (p : Nat → Bool) (i : Nat) : Nat :=
  scanFromGo sz p i (sz - i)

def shiftLeftGo {α : Type} (d : α) : List α → Nat → Nat → Nat → List α
  | entries, _, _, 0 => entries
  | entries, i, sz, n + 1 =>
    if i < sz then shiftLeftGo d (entries.set i (entries.getD (i + 1) d)) (i + 1) sz n
    else entries

/-- the left-shift loop: for each i of the interval from i0 to sz,
arr i := arr (i + 1) -/
def shiftLeftFrom {α : Type} (d : α) (entries : List α) (i sz : Nat) : List α :=
  shiftLeftGo d entries i sz (sz - i)

def copyShiftRightGo {α : Type} (d : α) (copy : List α) : List α → Nat → Nat → Nat → List α
  | entries, _, _, 0 => entries
  | entries, i, upTo, n + 1 =>
    if i < upTo then
      copyShiftRightGo d copy (entries.set i (copy.getD (i - 1) d)) (i + 1) upTo n
    else entries

/-- the right-shift loop of the inserts: for each j of the interval
from i to upTo, arr j := copy (j - 1), where copy is the pre-insert
snapshot of the array -/
def copyShiftRight {α : Type} (d : α) (entries copy : List α) (i upTo : Nat) : List α :=
  copyShiftRightGo d copy entries i upTo (upTo - i)

/-- copy n entries of src starting at off into dst starting at dstOff
(the split and merge copy loops) -/
def copyRange {α : Type} (d : α) (dst src : List α) (dstOff srcOff n : Nat) : List α :=
  (List.range n).foldl (fun acc j => acc.set (dstOff + j) (src.getD (srcOff + j) d)) dst

/-- SetKeyAt: overwrite the key of one slot, keeping its value -/
def setKeyAt (entries : List (Int × Int)) (i : Nat) (k : Int) : List (Int × Int) :=
  entries.set i (k, (entries.getD i (0, 0)).2)

/-- InsertInLeaf: find the first slot whose key compares greater, place
the new pair there and shift the tail right from the snapshot copy -/
def insertInLeaf (l : LeafNode) (key : Int) (value : Nat) : LeafNode :=
  let sz := l.size
  let i := scanFrom sz (fun j => comparator (l.entries.getD j (0, 0)).1 key == 1) 0
  let entries1 := l.entries.set i (key, value)
  let entries2 := copyShiftRight (0, 0) entries1 l.entries (i + 1) (sz + 1)
  { l with entries := entries2, size := sz + 1 }

/-- InsertInNonLeaf: same shape scanning from index 1 (the loop runs
while the comparator output stays at most 0, so it stops at the first
strictly greater key); the size field is left to the caller -/
def insertInNonLeaf (n : InternalNode) (key : Int) (value : Int) : InternalNode :=
  let sz := n.size
  let i := scanFrom sz (fun j => comparator (n.entries.getD j (0, 0)).1 key == 1) 1
  let entries1 := n.entries.set i (key, value)
  let entries2 := copyShiftRight (0, 0) entries1 n.entries (i + 1) (sz + 1)
  { n with entries := entries2 }

def pageIdOf : BPTPage → Int
  | BPTPage.leaf l => l.pageId
  | BPTPage.internal n => n.pageId

def parentIdOf : BPTPage → Int
  | BPTPage.leaf l => l.parentPageId
  | BPTPage.internal n => n.parentPageId

/-- SetParentPageId through the generic BPlusTreePage view -/
def setParentPageId : BPTPage → Int → BPTPage
  | BPTPage.leaf l, p => BPTPage.leaf { l with parentPageId := p }
  | BPTPage.internal n, p => BPTPage.internal { n with parentPageId := p }

/-- GetParentPageId of the page currently stored under pid (0 when the
page id is unknown, which no run of the embedded code reaches) -/
def parentOf (t : TreeState) (pid : Int) : Int :=
  match getPage t pid with
  | some pg => parentIdOf pg
  | none => 0

/-- the inner for-loop of GetLeafPage: smallest i of the interval from
1 to sz with i = sz or KeyAt(i) strictly greater than key; none when
sz = 0, where the loop body never breaks and the outer while spins -/
def findChildIndex (entries : List (Int × Int)) (sz : Nat) (key : Int) : Option Nat :=
  if sz = 0 then none
  else some (scanFrom sz (fun i => comparator (entries.getD i (0, 0)).1 key == 1) 1)

/-- the descent loop of GetLeafPage: on an internal page unpin it,
fetch the chosen child and continue; on a leaf return its page id
field, leaving the leaf pinned exactly as the source does -/
def getLeafPageLoop : Nat → TreeState → Int → Int → Option (Int × TreeState)
  | 0, _, _, _ => none
  | fuel + 1, t, key, pid =>
    match getPage t pid with
    | some (BPTPage.leaf l) => some (l.pageId, t)
    | some (BPTPage.internal n) =>
      match findChildIndex n.entries n.size key with
      | none => getLeafPageLoop fuel t key pid
      | some i =>
        let t1 := unpinPage t pid
        let child := (n.entries.getD (i - 1) (0, 0)).2
        getLeafPageLoop fuel (fetchPage t1 child) key child
    | none => none

/-- GetLeafPage: fetch the root and descend -/
def getLeafPage (fuel : Nat) (t : TreeState) (key : Int) : Option (Int × TreeState) :=
  getLeafPageLoop fuel (fetchPage t t.rootPageId) key t.rootPageId

/-- GetValue: early false on an empty tree, else descend, fetch the
leaf again, scan it for matches, unpin the leaf once and return -/
def getValue (fuel : Nat) (t : TreeState) (key : Int) :
    Option (Bool × List Nat × TreeState) :=
  if t.rootPageId = -1 then some (false, [], t)
  else
    match getLeafPage fuel t key with
    | none => none
    | some (lid, t1) =>
      let t2 := fetchPage t1 lid
      match getPage t2 lid with
      | some (BPTPage.leaf l) =>
        let vals := (List.range l.size).filterMap (fun i =>
          if comparator (l.entries.getD i (0, 0)).1 key == 0 then
            some (l.entries.getD i (0, 0)).2
          else none)
        let found := (List.range l.size).any (fun i =>
          comparator (l.entries.getD i (0, 0)).1 key == 0)
        some (found, vals, unpinPage t2 l.pageId)
      | _ => none

/-- GetPrevOrNextSibiling (source spelling): scan the parent from index
1 while keys compare at most 0; at the end the key was largest, so take
the previous child, else take the child at the stop index.  Returns
(is_next, sibling page id, middle key, index of middle key) -/
def getPrevOrNextSibiling (parent : InternalNode) (key : Int) : Bool × Int × Int × Nat :=
  let sz := parent.size
  let i := scanFrom sz (fun j => comparator (parent.entries.getD j (0, 0)).1 key == 1) 1
  if i = sz then
    (false, (parent.entries.getD (sz - 2) (0, 0)).2,
      (parent.entries.getD (sz - 1) (0, 0)).1, sz - 2)
  else
    (true, (parent.entries.getD i (0, 0)).2, (parent.entries.getD i (0, 0)).1, i)

mutual

/-- RemoveEntryInLeaf: shift the matching slot away and decrement the
size unconditionally (SetSize(--sz) runs even when the scan found no
match); then handle the root case or coalesce/borrow below the minimum
fill.  The C++ int size would reach -1 when a key misses an empty leaf;
Nat subtraction clamps that corner at 0, which no claim exercises. -/
def removeEntryInLeaf : Nat → TreeState → Int → Int → Option TreeState
  | 0, _, _, _ => none
  | fuel + 1, t, key, lid =>
    match getPage t lid with
    | some (BPTPage.leaf l) =>
      let sz := l.size
      let i := scanFrom sz (fun j => comparator (l.entries.getD j (0, 0)).1 key == 0) 0
      let entries1 := shiftLeftFrom (0, 0) l.entries i sz
      let sz1 := sz - 1
      let l1 : LeafNode := { l with entries := entries1, size := sz1 }
      let t1 := writePage t lid (BPTPage.leaf l1)
      if l1.parentPageId = l1.pageId ∧ sz1 = 1 then
        some (updateRootPageId { t1 with rootPageId := l1.pageId })
      else if ¬l1.parentPageId = l1.pageId ∧ sz1 < ceiling t.leafMaxSize then
        let t2 := fetchPage t1 l1.parentPageId
        match getPage t2 l1.parentPageId with
        | some (BPTPage.internal parent) =>
          let r := getPrevOrNextSibiling parent key
          let isNext := r.1
          let sibling := r.2.1
          let middleKey := r.2.2.1
          let index := r.2.2.2
          let t3 := fetchPage t2 sibling
          match getPage t3 sibling with
          | some (BPTPage.leaf sibRead) =>
            if sz1 + sibRead.size ≤ t.leafMaxSize then
              -- merge; the source swaps the two page pointers when the
              -- sibling is the next leaf, so track the two roles by id
              let leafRole := if isNext then sibling else lid
              let sibRole := if isNext then lid else sibling
              match getPage t3 sibRole, getPage t3 leafRole with
              | some (BPTPage.leaf tgt), some (BPTPage.leaf src) =>
                let s := tgt.size
                let tgt1 : LeafNode := { tgt with
                  entries := copyRange (0, 0) tgt.entries src.entries s 0 src.size,
                  size := s + src.size,
                  nextPageId := src.nextPageId }
                let t4 := writePage t3 sibRole (BPTPage.leaf tgt1)
                match removeEntryInNonLeaf fuel t4 middleKey l1.parentPageId with
                | none => none
                | some t5 =>
                  -- the merge branch unpins parent and sibling, and the
                  -- shared tail of the function unpins both again
                  let t6 := unpinPage t5 (parentOf t5 leafRole)
                  let t7 := unpinPage t6 sibling
                  let t8 := unpinPage t7 (parentOf t7 leafRole)
                  some (unpinPage t8 sibling)
              | _, _ => none
            else
              -- borrow one entry from the sibling (no pointer swap here)
              let s := sibRead.size
              if isNext then
                let firstKey := (sibRead.entries.getD 0 (0, 0)).1
                let firstVal := (sibRead.entries.getD 0 (0, 0)).2
                let sib1 : LeafNode := { sibRead with
                  entries := shiftLeftFrom (0, 0) sibRead.entries 0 (s - 1), size := s - 1 }
                let t4 := writePage t3 sibling (BPTPage.leaf sib1)
                let l2 : LeafNode := { l1 with
                  entries := l1.entries.set l1.size (firstKey, firstVal), size := l1.size + 1 }
                let t5 := writePage t4 lid (BPTPage.leaf l2)
                match getPage t5 l1.parentPageId with
                | some (BPTPage.internal pNow) =>
                  let t6 := writePage t5 l1.parentPageId
                    (BPTPage.internal { pNow with entries := setKeyAt pNow.entries index firstKey })
                  let t7 := unpinPage t6 (parentOf t6 lid)
                  some (unpinPage t7 sibling)
                | _ => none
              else
                -- KeyAt(sz) and ValueAt(sz) read one slot past the live
                -- entries of the sibling
                let lastKey := (sibRead.entries.getD s (0, 0)).1
                let lastVal := (sibRead.entries.getD s (0, 0)).2
                match removeEntryInLeaf fuel t3 lastKey sibling with
                | none => none
                | some t4 =>
                  match getPage t4 lid with
                  | some (BPTPage.leaf lNow) =>
                    let t5 := writePage t4 lid (BPTPage.leaf (insertInLeaf lNow lastKey lastVal))
                    match getPage t5 l1.parentPageId with
                    | some (BPTPage.internal pNow) =>
                      let t6 := writePage t5 l1.parentPageId
                        (BPTPage.internal { pNow with entries := setKeyAt pNow.entries (index + 1) lastKey })
                      let t7 := unpinPage t6 (parentOf t6 lid)
                      some (unpinPage t7 sibling)
                    | _ => none
                  | _ => none
          | _ => none
        | _ => none
      else some t1
    | _ => none

/-- RemoveEntryInNonLeaf: shift the matching slot away (scan from index
1), decrement the size, then collapse the root or coalesce below the
minimum fill -/
def removeEntryInNonLeaf : Nat → TreeState → Int → Int → Option TreeState
  | 0, _, _, _ => none
  | fuel + 1, t, key, iid =>
    match getPage t iid with
    | some (BPTPage.internal n) =>
      let sz := n.size
      let i := scanFrom sz (fun j => comparator (n.entries.getD j (0, 0)).1 key == 0) 1
      let entries1 := shiftLeftFrom (0, 0) n.entries i sz
      let sz1 := sz - 1
      let n1 : InternalNode := { n with entries := entries1, size := sz1 }
      let t1 := writePage t iid (BPTPage.internal n1)
      if n1.parentPageId = n1.pageId ∧ sz1 = 1 then
        some (updateRootPageId { t1 with rootPageId := (entries1.getD 0 (0, 0)).2 })
      else if ¬n1.parentPageId = n1.pageId ∧ sz1 < ceiling t.internalMaxSize then
        coalesceNonLeaf fuel t1 key iid
      else some t1
    | _ => none

/-- CoalesceNonLeaf: fetch parent and sibling; merge when the combined
size fits (copying entries and re-parenting the moved children, then
removing the middle key from the parent), else borrow one entry -/
def coalesceNonLeaf : Nat → TreeState → Int → Int → Option TreeState
  | 0, _, _, _ => none
  | fuel + 1, t, key, iid =>
    match getPage t iid with
    | some (BPTPage.internal n) =>
      let t1 := fetchPage t n.parentPageId
      match getPage t1 n.parentPageId with
      | some (BPTPage.internal parent) =>
        let r := getPrevOrNextSibiling parent key
        let isNext := r.1
        let sibling := r.2.1
        let middleKey := r.2.2.1
        let index := r.2.2.2
        let t2 := fetchPage t1 sibling
        match getPage t2 sibling with
        | some (BPTPage.internal sibRead) =>
          if n.size + sibRead.size ≤ t.internalMaxSize then
            -- merge; pointer swap when the sibling is the next child
            let intRole := if isNext then sibling else iid
            let sibRole := if isNext then iid else sibling
            match getPage t2 sibRole, getPage t2 intRole with
            | some (BPTPage.internal tgt), some (BPTPage.internal src) =>
              let s := tgt.size
              -- the copy loop also fetches each moved child, points its
              -- parent at the merge target and unpins it
              let stepped := (List.range src.size).foldl
                (fun (acc : List (Int × Int) × TreeState) j =>
                  let e := src.entries.getD j (0, 0)
                  let tA := fetchPage acc.2 e.2
                  let tB := match getPage tA e.2 with
                    | some pg => writePage tA e.2 (setParentPageId pg tgt.pageId)
                    | none => tA
                  (acc.1.set (s + j) e, unpinPage tB e.2))
                (tgt.entries, t2)
              let tgt1 : InternalNode := { tgt with
                entries := setKeyAt stepped.1 s middleKey,
                size := s + src.size }
              let t3 := writePage stepped.2 sibRole (BPTPage.internal tgt1)
              match removeEntryInNonLeaf fuel t3 middleKey n.parentPageId with
              | none => none
              | some t4 =>
                let t5 := unpinPage t4 (parentOf t4 intRole)
                some (unpinPage t5 sibling)
            | _, _ => none
          else
            -- borrow one entry from the sibling (no pointer swap here)
            let s := sibRead.size
            if isNext then
              let firstKey := (sibRead.entries.getD 1 (0, 0)).1
              let firstPage := (sibRead.entries.getD 0 (0, 0)).2
              let sib1 : InternalNode := { sibRead with
                entries := shiftLeftFrom (0, 0) sibRead.entries 0 (s - 1), size := s - 1 }
              let t3 := writePage t2 sibling (BPTPage.internal sib1)
              let n1 : InternalNode := { n with
                entries := n.entries.set n.size (middleKey, firstPage), size := n.size + 1 }
              let t4 := writePage t3 iid (BPTPage.internal n1)
              match getPage t4 n.parentPageId with
              | some (BPTPage.internal pNow) =>
                let t5 := writePage t4 n.parentPageId
                  (BPTPage.internal { pNow with entries := setKeyAt pNow.entries index firstKey })
                let t6 := unpinPage t5 (parentOf t5 iid)
                some (unpinPage t6 sibling)
              | _ => none
            else
              -- KeyAt(sz) and ValueAt(sz) read one slot past the live
              -- entries of the sibling; the insert back into this page
              -- goes through InsertInNonLeaf with no size increment,
              -- exactly as the source does
              let lastKey := (sibRead.entries.getD s (0, 0)).1
              let lastPage := (sibRead.entries.getD s (0, 0)).2
              match removeEntryInNonLeaf fuel t2 lastKey sibling with
              | none => none
              | some t3 =>
                match getPage t3 iid with
                | some (BPTPage.internal nNow) =>
                  let t4 := writePage t3 iid (BPTPage.internal (insertInNonLeaf nNow lastKey lastPage))
                  match getPage t4 n.parentPageId with
                  | some (BPTPage.internal pNow) =>
                    let t5 := writePage t4 n.parentPageId
                      (BPTPage.internal { pNow with entries := setKeyAt pNow.entries (index + 1) lastKey })
                    let t6 := unpinPage t5 (parentOf t5 iid)
                    some (unpinPage t6 sibling)
                  | _ => none
                | _ => none
        | _ => none
      | _ => none
    | _ => none

end

/-- Remove: nothing on an empty tree, else descend to the leaf, fetch
it again, run RemoveEntryInLeaf and unpin the leaf once -/
def remove (fuel : Nat) (t : TreeState) (key : Int) : Option TreeState :=
  if t.rootPageId = -1 then some t
  else
    match getLeafPage fuel t key with
    | none => none
    | some (lid, t1) =>
      let t2 := fetchPage t1 lid
      match removeEntryInLeaf fuel t2 key lid with
      | none => none
      | some t3 => some (unpinPage t3 lid)

/-- InsertInParent: grow a new root when the split page was the root;
otherwise insert the separator into the parent, and either bump the
parent's size and re-parent the right page, or split the parent too -/
def insertInParent : Nat → TreeState → Int → Int → Int → Option TreeState
  | 0, _, _, _, _ => none
  | fuel + 1, t, leftId, rightId, key =>
    match getPage t leftId with
    | none => none
    | some leftPg =>
      if pageIdOf leftPg = parentIdOf leftPg then
        let pr := newPage t
        let pid := pr.1
        let t1 := pr.2
        let root : InternalNode :=
          { pageId := pid
            parentPageId := pid
            size := 2
            maxSize := t.internalMaxSize
            entries := ((List.replicate (t.internalMaxSize + 1) ((0 : Int), (0 : Int))).set 0
              (key, pageIdOf leftPg)).set 1 (key, rightId) }
        let t2 := writePage t1 pid (BPTPage.internal root)
        let t3 := updateRootPageId { t2 with rootPageId := pid }
        let t4 := match getPage t3 leftId with
          | some pg => writePage t3 leftId (setParentPageId pg pid)
          | none => t3
        let t5 := match getPage t4 rightId with
          | some pg => writePage t4 rightId (setParentPageId pg pid)
          | none => t4
        some (unpinPage t5 pid)
      else
        let parentId := parentIdOf leftPg
        let t1 := fetchPage t parentId
        match getPage t1 parentId with
        | some (BPTPage.internal parent) =>
          let parent1 := insertInNonLeaf parent key rightId
          let t2 := writePage t1 parentId (BPTPage.internal parent1)
          if ¬parent1.size = parent1.maxSize then
            let parent2 : InternalNode := { parent1 with size := parent1.size + 1 }
            let t3 := writePage t2 parentId (BPTPage.internal parent2)
            let t4 := match getPage t3 rightId with
              | some pg => writePage t3 rightId (setParentPageId pg parentId)
              | none => t3
            some (unpinPage t4 parentId)
          else
            let middle := ceiling t.internalMaxSize
            let pr := newPage t2
            let pid := pr.1
            let t3 := pr.2
            let parent2 : InternalNode := { parent1 with size := middle }
            let t4 := writePage t3 parentId (BPTPage.internal parent2)
            -- the copy loop also fetches each moved child, points its
            -- parent at the new page and unpins it
            let stepped := (List.range (t.internalMaxSize - middle + 1)).foldl
              (fun (acc : List (Int × Int) × TreeState) j =>
                let e := parent1.entries.getD (middle + j) (0, 0)
                let tA := fetchPage acc.2 e.2
                let tB := match getPage tA e.2 with
                  | some pg => writePage tA e.2 (setParentPageId pg pid)
                  | none => tA
                (acc.1.set j e, unpinPage tB e.2))
              (List.replicate (t.internalMaxSize + 1) ((0 : Int), (0 : Int)), t4)
            let ni : InternalNode :=
              { pageId := pid
                parentPageId := parent1.parentPageId
                size := t.internalMaxSize - middle + 1
                maxSize := t.internalMaxSize
                entries := stepped.1 }
            let t5 := writePage stepped.2 pid (BPTPage.internal ni)
            match insertInParent fuel t5 parentId pid ((parent1.entries.getD middle (0, 0)).1) with
            | none => none
            | some t6 =>
              let t7 := unpinPage t6 pid
              some (unpinPage t7 parentId)
        | _ => none

/-- the new sibling leaf built by the split arm of Insert: Init with
the old leaf's parent, next pointer set to the old leaf's next, size
leaf_max_size - middle, and the copy loop moving the entries from
position middle on -/
def leafSplitNew (lm : Nat) (nid : Int) (l1 : LeafNode) : LeafNode :=
  { pageId := nid
    parentPageId := l1.parentPageId
    size := lm - ceiling lm
    maxSize := lm
    nextPageId := l1.nextPageId
    entries := copyRange (0, 0) (List.replicate lm ((0 : Int), (0 : Nat)))
      l1.entries 0 (ceiling lm) (lm - ceiling lm) }

/-- the old leaf after the split arm of Insert: next pointer now the
new sibling, size cut to middle -/
def leafSplitOld (nid : Int) (lm : Nat) (l1 : LeafNode) : LeafNode :=
  { l1 with nextPageId := nid, size := ceiling lm }

/-- Insert: start a new one-entry root leaf on an empty tree, else
descend, reject duplicates, InsertInLeaf, and split the leaf when its
size has reached leaf_max_size.  The third component records the two
SetNextPageId calls of the split splice in program order, each as
(page written, next page id stored into it). -/
def insert (fuel : Nat) (t : TreeState) (key : Int) (value : Nat) :
    Option (TreeState × Bool × List (Int × Int)) :=
  if t.rootPageId = -1 then
    let pr := newPage t
    let pid := pr.1
    let t1 := pr.2
    let t2 := updateRootPageId { t1 with rootPageId := pid }
    let l : LeafNode :=
      { pageId := pid
        parentPageId := pid
        size := 1
        maxSize := t.leafMaxSize
        nextPageId := -1
        entries := (List.replicate t.leafMaxSize ((0 : Int), (0 : Nat))).set 0 (key, value) }
    let t3 := writePage t2 pid (BPTPage.leaf l)
    some (unpinPage t3 pid, true, [])
  else
    match getLeafPage fuel t key with
    | none => none
    | some (lid, t1) =>
      let t2 := fetchPage t1 lid
      match getPage t2 lid with
      | some (BPTPage.leaf l) =>
        if (List.range l.size).any (fun i => comparator (l.entries.getD i (0, 0)).1 key == 0) then
          some (unpinPage t2 l.pageId, false, [])
        else
          let l1 := insertInLeaf l key value
          let t3 := writePage t2 lid (BPTPage.leaf l1)
          if t.leafMaxSize ≤ l1.size then
            let pr := newPage t3
            let nid := pr.1
            let t4 := pr.2
            let nl := leafSplitNew t.leafMaxSize nid l1
            let t5 := writePage (writePage t4 lid (BPTPage.leaf (leafSplitOld nid t.leafMaxSize l1)))
              nid (BPTPage.leaf nl)
            match insertInParent fuel t5 lid nid ((nl.entries.getD 0 (0, 0)).1) with
            | none => none
            | some t6 =>
              let t7 := unpinPage t6 nid
              some (unpinPage t7 lid, true, [(nid, l1.nextPageId), (lid, nid)])
          else
            some (unpinPage t3 lid, true, [])
      | _ => none

/-- the demonstration tree: a single root leaf holding (1, 100) -/
def demoLeaf : LeafNode :=
  { pageId := 1, parentPageId := 1, size := 1, maxSize := 3, nextPageId := -1,
    entries := [(1, 100), (0, 0), (0, 0)] }

def demoTree : TreeState :=
  { rootPageId := 1, leafMaxSize := 3, internalMaxSize := 3,
    store := [(1, BPTPage.leaf demoLeaf)], pins := [], nextPageId := 2 }

/-- a two-leaf tree below an internal root, for exercising the split -/
def c7Leaf1 : LeafNode :=
  { pageId := 1, parentPageId := 10, size := 2, maxSize := 3, nextPageId := 2,
    entries := [(1, 10), (3, 30), (0, 0)] }

def c7Leaf2 : LeafNode :=
  { pageId := 2, parentPageId := 10, size := 2, maxSize := 3, nextPageId := -1,
    entries := [(5, 50), (7, 70), (0, 0)] }

def c7Root : InternalNode :=
  { pageId := 10, parentPageId := 10, size := 2, maxSize := 3,
    entries := [(0, 1), (5, 2), (0, 0), (0, 0)] }

def c7Tree : TreeState :=
  { rootPageId := 10, leafMaxSize := 3, internalMaxSize := 3,
    store := [(10, BPTPage.internal c7Root), (1, BPTPage.leaf c7Leaf1),
      (2, BPTPage.leaf c7Leaf2)],
    pins := [], nextPageId := 3 }

/-- the state after the descent of GetLeafPage on c7Tree: the root was
pinned and unpinned, leaf 1 is left pinned -/
def c7Mid : TreeState := { c7Tree with pins := [(10, 0), (1, 1)] }

end BPlusTree

/-! ## Theorems -/

/-! ### List helpers -/
theorem getD_set_ne {α : Type} (l : List α) (i j : Nat) (x d : α) (h : i ≠ j) :
    (l.set i x).getD j d = l.getD j d := by
  simp [List.getD_eq_getElem?_getD, List.getElem?_set_ne h]

theorem getD_append_lt {α : Type} (l l2 : List α) (j : Nat) (d : α) (h : j < l.length) :
    (l ++ l2).getD j d = l.getD j d :=
  List.getD_append l l2 d j h

theorem getD_map_range {α : Type} (f : Nat → α) (n j : Nat) (d : α) (h : j < n) :
    ((List.range n).map f).getD j d = f j := by
  simp [List.getD_eq_getElem?_getD, List.getElem?_range h]

/-! ### Hash table claims C2, C3, C8

All three rest on the same reachable states of ExtendibleHashTable of
int, int.  The directory-slot update loop of Insert tests
(i & ~(1 << local_depth)) == new_bucket_idx, which clears a single bit
instead of comparing the low local_depth bits, so directory slots that
differ from the new bucket's canonical index in two or more high bits
keep referencing the old bucket after a split. -/

namespace ExtendibleHashTable

/-- C2: with bucket capacity 2, after inserting keys
1, 11, 0, 2, 4, 8, 16 the table still returns value 20 for key 11, but
the next insertion (key 3) splits the odd bucket, moves the entry for
key 11 into the new bucket, and leaves directory slot 11 pointing at the
old bucket; Find(11) then returns none although (11, 20) was inserted
and never removed.  This refutes the claim that Find returns the last
inserted value after any sequence of operations. -/
theorem eht_find_misses_inserted_key :
    (runInserts (new 2) ehtSeqA).map (fun t => t.find 11) = some (some 20) ∧
    (runInserts (new 2) (ehtSeqA ++ [(3, 80)])).map (fun t => t.find 11) = some none := by
  constructor
  · rfl
  · rfl

/-- C3: the state reached by ehtSeqA on bucket capacity 2 satisfies the
directory invariants, and a single further Insert(3, 80) breaks them:
directory slot 11 still references the bucket whose canonical index is
1 after that bucket's local depth grew to 2.  Insert does not preserve
the invariants. -/
theorem eht_insert_breaks_directory_invariant :
    (runInserts (new 2) ehtSeqA).map invariantHolds = some true ∧
    ((runInserts (new 2) ehtSeqA).bind (fun t => insert 64 t 3 80)).map invariantHolds =
      some false := by
  constructor
  · rfl
  · rfl

theorem redistribute_id (bs ld idx : Nat) (dir3 : List Nat) (items : List (Nat × Nat))
    (store3 : List Bucket) (h : ∀ e ∈ items, indexOfDepth e.1 (ld + 1) = idx) :
    redistribute bs ld idx dir3 items store3 = store3 := by
  induction items generalizing store3 with
  | nil => rfl
  | cons e l ih =>
    have he : indexOfDepth e.1 (ld + 1) = idx := h e (by simp)
    unfold redistribute
    simp only [List.foldl_cons, he, ne_eq, not_true_eq_false, if_neg, ite_false]
    exact ih _ (fun x hx => h x (by simp [hx]))

theorem getD_set_self {α : Type} (l : List α) (i : Nat) (x d : α) (h : i < l.length) :
    (l.set i x).getD i d = x := by
  rw [List.getD_eq_getElem?_getD, List.getElem?_set_self', List.getElem?_eq_getElem h]
  rfl

theorem aliasUpdatedDir_length (dir2 : List Nat) (ld newIdx : Nat) :
    (aliasUpdatedDir dir2 ld newIdx).length = dir2.length := by
  simp [aliasUpdatedDir]

theorem aliasUpdatedDir_getD (dir2 : List Nat) (ld newIdx j : Nat) (h : j < dir2.length) :
    (aliasUpdatedDir dir2 ld newIdx).getD j 0 =
      if clearBit j (ld + 1) = newIdx then dir2.getD newIdx 0 else dir2.getD j 0 := by
  unfold aliasUpdatedDir
  exact getD_map_range _ _ _ _ h

theorem splitStep_loopInv (t : ExtendibleHashTable) (h : LoopInv t) :
    LoopInv (t.splitStep 11) := by
  obtain ⟨hgd, hbs, hdl, hne, h11, h3, hdep, hlen, hmod⟩ := h
  simp only [bidAt, bucketAt] at hne h11 h3 hdep hlen hmod
  have hidx : t.indexOf 11 = 11 := by simp [indexOf, indexOfDepth, hgd]
  have hsplit : t.splitStep 11 = splitCore t t.bucketSize t.numBuckets 2 3 := by
    unfold splitStep
    simp only [hidx, bucketAt, bidAt, hdep, hgd]
    norm_num [indexOfDepth]
  rw [hsplit]
  unfold splitCore
  have e1 : (3 : Nat) ||| 2 ^ 2 = 7 := by decide
  simp only [e1, show (2 + 1 : Nat) = 3 from rfl]
  have hd2len : (t.dir.set 7 t.store.length).length = 16 := by
    rw [List.length_set, hdl]
  have hd2at3 : (t.dir.set 7 t.store.length).getD 3 0 = t.dir.getD 3 0 :=
    getD_set_ne _ _ _ _ _ (by decide)
  have hd2at11 : (t.dir.set 7 t.store.length).getD 11 0 = t.dir.getD 11 0 :=
    getD_set_ne _ _ _ _ _ (by decide)
  have hd3at3 : (aliasUpdatedDir (t.dir.set 7 t.store.length) 2 7).getD 3 0 = t.dir.getD 3 0 := by
    rw [aliasUpdatedDir_getD _ _ _ _ (by rw [hd2len]; norm_num)]
    rw [if_neg (by decide), hd2at3]
  have hd3at11 :
      (aliasUpdatedDir (t.dir.set 7 t.store.length) 2 7).getD 11 0 = t.dir.getD 11 0 := by
    rw [aliasUpdatedDir_getD _ _ _ _ (by rw [hd2len]; norm_num)]
    rw [if_neg (by decide), hd2at11]
  have hs2at3 :
      (t.store ++ [({ depth := 3, items := [] } : Bucket)]).getD (t.dir.getD 3 0) defaultBucket =
        t.store.getD (t.dir.getD 3 0) defaultBucket :=
    getD_append_lt _ _ _ _ h3
  have hs2at11 :
      (t.store ++ [({ depth := 3, items := [] } : Bucket)]).getD (t.dir.getD 11 0) defaultBucket =
        t.store.getD (t.dir.getD 11 0) defaultBucket :=
    getD_append_lt _ _ _ _ h11
  simp only [hd2at3, hd3at3, hs2at3]
  have h3app : t.dir.getD 3 0 < (t.store ++ [({ depth := 3, items := [] } : Bucket)]).length := by
    rw [List.length_append]
    exact Nat.lt_of_lt_of_le h3 (by simp)
  have hs3at3 :
      ((t.store ++ [({ depth := 3, items := [] } : Bucket)]).set (t.dir.getD 3 0)
        { depth := (t.store.getD (t.dir.getD 3 0) defaultBucket).depth + 1
          items := (t.store.getD (t.dir.getD 3 0) defaultBucket).items }).getD
        (t.dir.getD 3 0) defaultBucket =
      ({ depth := (t.store.getD (t.dir.getD 3 0) defaultBucket).depth + 1
         items := (t.store.getD (t.dir.getD 3 0) defaultBucket).items } : Bucket) :=
    getD_set_self _ _ _ _ h3app
  simp only [hs3at3]
  rw [redistribute_id _ _ _ _ _ _ (fun e he => by
    have := hmod e he
    simp [indexOfDepth, this])]
  have hne3 : t.dir.getD 3 0 ≠ t.dir.getD 11 0 := Ne.symm hne
  unfold LoopInv
  simp only [bidAt, bucketAt]
  refine ⟨hgd, hbs, ?_, ?_, ?_, ?_, ?_, ?_, ?_⟩
  · rw [aliasUpdatedDir_length, hd2len]
  · rw [hd3at11, hd3at3]; exact hne
  · rw [hd3at11, List.length_set, List.length_append]
    exact Nat.lt_succ_of_lt h11
  · rw [hd3at3, List.length_set, List.length_append]
    exact Nat.lt_succ_of_lt h3
  · rw [hd3at11, getD_set_ne _ _ _ _ _ hne3, hs2at11, hdep]
  · rw [hd3at11, getD_set_ne _ _ _ _ _ hne3, hs2at11, hlen]
  · rw [hd3at3, hs3at3]
    exact hmod

theorem insert_none_of_loopInv (fuel : Nat) :
    ∀ (t : ExtendibleHashTable), LoopInv t → ∀ v, insert fuel t 11 v = none := by
  induction fuel with
  | zero => intro t _ v; rfl
  | succ n ih =>
    intro t h v
    obtain ⟨hgd, hbs, _, _, _, _, _, hlen, _⟩ := id h
    have hidx : t.indexOf 11 = 11 := by simp [indexOf, indexOfDepth, hgd]
    have hfull : (t.bucketAt 11).isFull t.bucketSize = true := by
      simp [Bucket.isFull, hlen, hbs]
    unfold insert
    simp only [hidx, hfull, if_pos]
    exact ih _ (splitStep_loopInv t h) v

/-- C8: Insert does not always terminate.  On a table of bucket
capacity 1, after inserting keys 0, 2, 4, 8, 1, 3 the directory has
global depth 4 while slot 11 still references the full bucket of local
depth 2 that canonically lives at slot 1 (the slot-update loop of the
earlier split missed it).  Insert(11, v) then retries forever: every
retry finds the stale full bucket at slot 11, splits the bucket at slot
3 instead, and never changes slot 11.  No fuel bound suffices, which
refutes the claim that the retries are bounded by the directory's
maximum depth. -/
theorem eht_insert_nonterminating :
    runInserts (new 1) ehtSeqB = some ehtLoopState ∧
    ∀ (fuel v : Nat), insert fuel ehtLoopState 11 v = none := by
  constructor
  · rfl
  · intro fuel v
    exact insert_none_of_loopInv fuel ehtLoopState (by decide) v

end ExtendibleHashTable

namespace LRUKReplacer

theorem kth_mem (ts : List Nat) (k : Nat) (h : k - 1 < ts.length) :
    findKthPreviousTimestamp ts k ∈ ts := by
  unfold findKthPreviousTimestamp
  rw [List.getD_eq_getElem?_getD, List.getElem?_eq_getElem (by simpa using h)]
  exact List.mem_reverse.mp (by exact List.getElem_mem _)

theorem scan_go (k cur : Nat) (l : List (Nat × List Nat))
    (acc : Nat × Option Nat × List (Nat × List Nat)) :
    (l.foldl (evictScanBody k cur) acc).2.2 =
        acc.2.2 ++ l.filter (fun f => f.2.length < k) ∧
    acc.1 ≤ (l.foldl (evictScanBody k cur) acc).1 ∧
    (∀ g ∈ l, k ≤ g.2.length →
      cur - findKthPreviousTimestamp g.2 k ≤ (l.foldl (evictScanBody k cur) acc).1) ∧
    (((l.foldl (evictScanBody k cur) acc).2.1 = acc.2.1 ∧
        (l.foldl (evictScanBody k cur) acc).1 = acc.1) ∨
      ∃ c ts, (l.foldl (evictScanBody k cur) acc).2.1 = some c ∧ (c, ts) ∈ l ∧
        k ≤ ts.length ∧
        (l.foldl (evictScanBody k cur) acc).1 = cur - findKthPreviousTimestamp ts k) := by
  induction l generalizing acc with
  | nil => simp
  | cons f l ih =>
    rw [List.foldl_cons]
    by_cases hf : f.2.length < k
    · have hb : evictScanBody k cur acc f = (acc.1, acc.2.1, acc.2.2 ++ [f]) := by
        unfold evictScanBody; rw [if_pos hf]
      rw [hb]
      obtain ⟨ih1, ih2, ih3, ih4⟩ := ih (acc.1, acc.2.1, acc.2.2 ++ [f])
      refine ⟨?_, ih2, ?_, ?_⟩
      · rw [ih1, List.filter_cons_of_pos (by simpa using hf), List.append_assoc]
        rfl
      · intro g hg hgk
        rcases List.mem_cons.mp hg with h1 | h1
        · subst h1; omega
        · exact ih3 g h1 hgk
      · rcases ih4 with ⟨h1, h2⟩ | ⟨c, ts, h1, h2, h3, h4⟩
        · exact Or.inl ⟨h1, h2⟩
        · exact Or.inr ⟨c, ts, h1, List.mem_cons_of_mem _ h2, h3, h4⟩
    · have hkf : k ≤ f.2.length := Nat.le_of_not_lt hf
      by_cases hlt : acc.1 < cur - findKthPreviousTimestamp f.2 k
      · have hb : evictScanBody k cur acc f =
            (cur - findKthPreviousTimestamp f.2 k, some f.1, acc.2.2) := by
          simp [evictScanBody, hf, hlt]
        rw [hb]
        obtain ⟨ih1, ih2, ih3, ih4⟩ :=
          ih (cur - findKthPreviousTimestamp f.2 k, some f.1, acc.2.2)
        refine ⟨?_, by omega, ?_, ?_⟩
        · rw [ih1, List.filter_cons_of_neg (by simpa using hf)]
        · intro g hg hgk
          rcases List.mem_cons.mp hg with h1 | h1
          · subst h1; simpa using ih2
          · exact ih3 g h1 hgk
        · rcases ih4 with ⟨h1, h2⟩ | ⟨c, ts, h1, h2, h3, h4⟩
          · exact Or.inr ⟨f.1, f.2, by simpa using h1, by simp, hkf, by simpa using h2⟩
          · exact Or.inr ⟨c, ts, h1, List.mem_cons_of_mem _ h2, h3, h4⟩
      · have hb : evictScanBody k cur acc f = acc := by
          simp [evictScanBody, hf, hlt]
        rw [hb]
        obtain ⟨ih1, ih2, ih3, ih4⟩ := ih acc
        refine ⟨?_, ih2, ?_, ?_⟩
        · rw [ih1, List.filter_cons_of_neg (by simpa using hf)]
        · intro g hg hgk
          rcases List.mem_cons.mp hg with h1 | h1
          · subst h1; omega
          · exact ih3 g h1 hgk
        · rcases ih4 with ⟨h1, h2⟩ | ⟨c, ts, h1, h2, h3, h4⟩
          · exact Or.inl ⟨h1, h2⟩
          · exact Or.inr ⟨c, ts, h1, List.mem_cons_of_mem _ h2, h3, h4⟩

theorem earliest_go (l : List (Nat × List Nat)) (acc : Option Nat × Nat) :
    (l.foldl earliestBody acc).2 ≤ acc.2 ∧
    (∀ g ∈ l, (l.foldl earliestBody acc).2 ≤ g.2.headD 0) ∧
    (l.foldl earliestBody acc = acc ∨
      ∃ c ts, (l.foldl earliestBody acc).1 = some c ∧ (c, ts) ∈ l ∧
        (l.foldl earliestBody acc).2 = ts.headD 0) := by
  induction l generalizing acc with
  | nil => simp
  | cons f l ih =>
    rw [List.foldl_cons]
    by_cases hf : f.2.headD 0 < acc.2
    · have hb : earliestBody acc f = (some f.1, f.2.headD 0) := by
        unfold earliestBody; rw [if_pos hf]
      rw [hb]
      obtain ⟨ih1, ih2, ih3⟩ := ih (some f.1, f.2.headD 0)
      refine ⟨by omega, ?_, ?_⟩
      · intro g hg
        rcases List.mem_cons.mp hg with h1 | h1
        · subst h1; simpa using ih1
        · exact ih2 g h1
      · rcases ih3 with h1 | ⟨c, ts, h1, h2, h3⟩
        · exact Or.inr ⟨f.1, f.2, by rw [h1], by simp, by rw [h1]⟩
        · exact Or.inr ⟨c, ts, h1, List.mem_cons_of_mem _ h2, h3⟩
    · have hb : earliestBody acc f = acc := by
        unfold earliestBody; rw [if_neg hf]
      rw [hb]
      obtain ⟨ih1, ih2, ih3⟩ := ih acc
      refine ⟨ih1, ?_, ?_⟩
      · intro g hg
        rcases List.mem_cons.mp hg with h1 | h1
        · subst h1; omega
        · exact ih2 g h1
      · rcases ih3 with h1 | ⟨c, ts, h1, h2, h3⟩
        · exact Or.inl h1
        · exact Or.inr ⟨c, ts, h1, List.mem_cons_of_mem _ h2, h3⟩

theorem lookup_erase_self (l : List (Nat × List Nat)) (fid : Nat)
    (h : (l.map Prod.fst).Nodup) : lookupFrame (eraseFrame l fid) fid = none := by
  induction l with
  | nil => rfl
  | cons x xs ih =>
    simp only [List.map_cons, List.nodup_cons] at h
    unfold eraseFrame
    by_cases hx : x.1 = fid
    · rw [if_pos (by simpa using hx)]
      subst hx
      unfold lookupFrame
      rw [List.find?_eq_none.mpr]
      · rfl
      · intro e he hbe
        exact h.1 (List.mem_map.mpr ⟨e, he, (Nat.beq_eq ..).mp (by simpa using hbe)⟩)
    · rw [if_neg (by simpa using hx)]
      unfold lookupFrame
      rw [List.find?_cons_of_neg _ (by simpa using hx)]
      exact ih h.2

theorem lookup_erase_ne (l : List (Nat × List Nat)) (fid g : Nat) (h : g ≠ fid) :
    lookupFrame (eraseFrame l fid) g = lookupFrame l g := by
  induction l with
  | nil => rfl
  | cons x xs ih =>
    unfold eraseFrame
    by_cases hx : x.1 = fid
    · rw [if_pos (by simpa using hx)]
      unfold lookupFrame
      rw [List.find?_cons_of_neg _ (by simp [hx, h.symm])]
    · rw [if_neg (by simpa using hx)]
      unfold lookupFrame
      by_cases hg : x.1 = g
      · rw [List.find?_cons_of_pos _ (by simpa using hg),
          List.find?_cons_of_pos _ (by simpa using hg)]
      · rw [List.find?_cons_of_neg _ (by simpa using hg),
          List.find?_cons_of_neg _ (by simpa using hg)]
        exact ih

/-- the victim characterization used by claim C5: FindEvictFrame on a
state whose evictable map is non-empty, whose histories are non-empty
with all timestamps below the (already advanced) current timestamp, and
whose first timestamps are below INT32_MAX, returns a frame of the
evictable map that is minimal in the sense of the specification: the
earliest first timestamp among the frames with fewer than k accesses if
any exist, else the smallest k-th most recent timestamp. -/
theorem findEvictFrame_spec (r : LRUKReplacer)
    (hfm : r.frameMap ≠ [])
    (hne : ∀ f ∈ r.frameMap, f.2 ≠ [])
    (hlt : ∀ f ∈ r.frameMap, ∀ ts ∈ f.2, ts < r.currentTimestamp)
    (hbound : ∀ f ∈ r.frameMap, f.2.headD 0 < 2147483647) :
    ∃ fid ts, findEvictFrame r = some fid ∧ (fid, ts) ∈ r.frameMap ∧
      (if groupA r = [] then
        r.k ≤ ts.length ∧ ∀ g ∈ r.frameMap,
          findKthPreviousTimestamp ts r.k ≤ findKthPreviousTimestamp g.2 r.k
      else
        ts.length < r.k ∧ ∀ g ∈ groupA r, ts.headD 0 ≤ g.2.headD 0) := by
  have hkth_lt : ∀ g ∈ r.frameMap, g.2 ≠ [] → r.k ≤ g.2.length →
      findKthPreviousTimestamp g.2 r.k < r.currentTimestamp := by
    intro g hg hgne hkg
    have hlen : 0 < g.2.length := List.length_pos.mpr hgne
    exact hlt g hg _ (kth_mem g.2 r.k (by omega))
  obtain ⟨hs1, hs2, hs3, hs4⟩ :=
    scan_go r.k r.currentTimestamp r.frameMap (0, none, [])
  simp only [findEvictFrame]
  rw [List.nil_append] at hs1
  by_cases hA : r.frameMap.filter (fun f => f.2.length < r.k) = []
  · -- no frame has fewer than k accesses: the k-distance winner is the victim
    have hAall : ∀ g ∈ r.frameMap, r.k ≤ g.2.length := by
      intro g hg
      by_contra hcon
      have : g ∈ r.frameMap.filter (fun f => f.2.length < r.k) :=
        List.mem_filter.mpr ⟨hg, by simpa using Nat.lt_of_not_le hcon⟩
      simp [hA] at this
    obtain ⟨f0, l0, hf0⟩ := List.exists_cons_of_ne_nil hfm
    have hf0mem : f0 ∈ r.frameMap := by rw [hf0]; simp
    rcases hs4 with ⟨-, hval⟩ | ⟨c, ts, hc, hcmem, hck, hcval⟩
    · -- the accumulator was never beaten: impossible, the first frame wins
      exfalso
      have h0 := hs3 f0 hf0mem (hAall f0 hf0mem)
      have hklt := hkth_lt f0 hf0mem (hne f0 hf0mem) (hAall f0 hf0mem)
      omega
    · refine ⟨c, ts, ?_, hcmem, ?_⟩
      · rw [hs1, hA]
        simpa using hc
      · rw [if_pos (by simpa [groupA] using hA)]
        refine ⟨hck, fun g hg => ?_⟩
        have hgb := hs3 g hg (hAall g hg)
        have h1 := hkth_lt g hg (hne g hg) (hAall g hg)
        have h2 := hkth_lt (c, ts) hcmem (hne (c, ts) hcmem) (by simpa using hck)
        simp only at h2
        omega
  · -- some frame has fewer than k accesses: earliest first timestamp wins
    have hgA : groupA r = r.frameMap.filter (fun f => f.2.length < r.k) := rfl
    obtain ⟨a0, arest, ha0⟩ := List.exists_cons_of_ne_nil hA
    by_cases hsingle : arest = []
    · -- exactly one such frame
      subst hsingle
      refine ⟨a0.1, a0.2, ?_, ?_, ?_⟩
      · rw [hs1, ha0]
        rfl
      · have := List.mem_filter.mp (ha0 ▸ (List.mem_singleton_self a0 : a0 ∈ [a0]))
        exact this.1
      · rw [if_neg (by simp [hgA, ha0])]
        constructor
        · have := List.mem_filter.mp (ha0 ▸ (List.mem_singleton_self a0 : a0 ∈ [a0]))
          simpa using this.2
        · intro g hg
          rw [hgA, ha0] at hg
          simp at hg
          rw [hg]
    · -- more than one: FindEarliestFrame scans largest_k_frames
      obtain ⟨he1, he2, he3⟩ :=
        earliest_go (r.frameMap.filter (fun f => f.2.length < r.k)) (none, 2147483647)
      have ha0mem : a0 ∈ r.frameMap.filter (fun f => f.2.length < r.k) := by
        rw [ha0]; simp
      rcases he3 with heq | ⟨c, ts, hc, hcmem, hcval⟩
      · -- the INT32_MAX initial value was never beaten: impossible
        exfalso
        have h1 := he2 a0 ha0mem
        have h2 := hbound a0 (List.mem_filter.mp ha0mem).1
        rw [heq] at h1
        have h3 : 2147483647 ≤ a0.2.headD 0 := h1
        omega
      · refine ⟨c, ts, ?_, (List.mem_filter.mp hcmem).1, ?_⟩
        · rw [hs1]
          have hlen2 : 1 < (r.frameMap.filter (fun f => f.2.length < r.k)).length := by
            rw [ha0]
            have : arest ≠ [] := hsingle
            have := List.length_pos.mpr this
            simp
            omega
          rw [if_neg (by simp; omega), if_pos (by simpa using hlen2)]
          unfold findEarliestFrame
          rw [hc]
        · rw [if_neg (by simp [hgA, ha0])]
          refine ⟨by simpa using (List.mem_filter.mp hcmem).2, fun g hg => ?_⟩
          rw [← hcval]
          exact he2 g (hgA ▸ hg)

theorem lookup_insertSorted_self (l : List (Nat × List Nat)) (fid : Nat) (tsl : List Nat)
    (h : lookupFrame l fid = none) :
    lookupFrame (insertSorted l (fid, tsl)) fid = some tsl := by
  induction l with
  | nil => simp [insertSorted, lookupFrame]
  | cons x xs ih =>
    unfold insertSorted
    by_cases hx : fid < x.1
    · rw [if_pos hx]
      simp [lookupFrame]
    · rw [if_neg hx]
      unfold lookupFrame at h ⊢
      by_cases he : x.1 = fid
      · rw [List.find?_cons_of_pos _ (by simpa using he)] at h
        simp at h
      · rw [List.find?_cons_of_neg _ (by simpa using he)] at h
        rw [List.find?_cons_of_neg _ (by simpa using he)]
        exact ih h

theorem lookup_appendTs_self (l : List (Nat × List Nat)) (fid c : Nat) (tsl : List Nat)
    (h : lookupFrame l fid = some tsl) :
    lookupFrame (appendTs l fid c) fid = some (tsl ++ [c]) := by
  induction l with
  | nil => simp [lookupFrame] at h
  | cons x xs ih =>
    unfold appendTs lookupFrame at *
    by_cases he : x.1 = fid
    · rw [List.find?_cons_of_pos _ (by simpa using he)] at h
      simp at h
      rw [List.map_cons, if_pos (by simpa using he),
        List.find?_cons_of_pos _ (by simpa using he)]
      simp [h]
    · rw [List.find?_cons_of_neg _ (by simpa using he)] at h
      rw [List.map_cons, if_neg (by simpa using he),
        List.find?_cons_of_neg _ (by simpa using he)]
      exact ih h

/-- C5: on a well-formed replacer state (non-empty histories, all
recorded timestamps at most the current one, first timestamps below
INT32_MAX, distinct frame ids in the evictable map), Evict returns none
exactly when no evictable frame exists, and otherwise removes and
returns a victim chosen as the specification describes: among the
evictable frames with fewer than k recorded accesses the one with the
earliest first-recorded timestamp, and if no such frame exists, the
evictable frame whose k-th most recent access timestamp is smallest. -/
theorem lruk_evict_correct (r : LRUKReplacer)
    (hne : ∀ f ∈ r.frameMap, f.2 ≠ [])
    (hle : ∀ f ∈ r.frameMap, ∀ ts ∈ f.2, ts ≤ r.currentTimestamp)
    (hbound : ∀ f ∈ r.frameMap, f.2.headD 0 < 2147483647)
    (hnodup : (r.frameMap.map Prod.fst).Nodup) :
    ∃ res, evict r = some res ∧
      (res.1 = none ↔ r.frameMap = []) ∧
      (∀ fid, res.1 = some fid →
        (∃ ts, (fid, ts) ∈ r.frameMap ∧
          (if groupA r = [] then
            r.k ≤ ts.length ∧ ∀ g ∈ r.frameMap,
              findKthPreviousTimestamp ts r.k ≤ findKthPreviousTimestamp g.2 r.k
          else
            ts.length < r.k ∧ ∀ g ∈ groupA r, ts.headD 0 ≤ g.2.headD 0)) ∧
        lookupFrame res.2.frameMap fid = none ∧
        (∀ g, g ≠ fid → lookupFrame res.2.frameMap g = lookupFrame r.frameMap g) ∧
        res.2.currSize = r.currSize - 1) := by
  by_cases hfm : r.frameMap = []
  · refine ⟨(none, { r with currentTimestamp := r.currentTimestamp + 1 }), ?_, ?_, ?_⟩
    · simp [evict, hfm]
    · simp [hfm]
    · intro fid h
      simp at h
  · have hfind := findEvictFrame_spec
      { r with currentTimestamp := r.currentTimestamp + 1 }
      (by simpa using hfm) (by simpa using hne)
      (by intro f hf ts hts
          have := hle f hf ts hts
          simp only
          omega)
      (by simpa using hbound)
    obtain ⟨fid, ts, hfind, hmem, hprop⟩ := hfind
    refine ⟨(some fid,
      { r with
        currentTimestamp := r.currentTimestamp + 1
        frameMap := eraseFrame r.frameMap fid
        currSize := r.currSize - 1 }), ?_, ?_, ?_⟩
    · have hlen : (r.frameMap.length == 0) = false := by
        simpa using fun h => hfm (List.length_eq_zero.mp h)
      simp only [evict, hlen, Bool.false_eq_true, if_neg]
      rw [hfind]
      simp
    · simp [hfm]
    · intro fid2 h2
      have : fid2 = fid := by simpa using h2.symm
      subst this
      refine ⟨⟨ts, hmem, hprop⟩, ?_, ?_, rfl⟩
      · exact lookup_erase_self r.frameMap fid2 hnodup
      · intro g hg
        exact lookup_erase_ne r.frameMap fid2 g hg

theorem lruk_evict_correct_witness :
    ∃ res, evict ⟨7, 2, 10, 2, [(1, [3]), (2, [1, 2])], []⟩ = some res ∧
      (res.1 = none ↔ ([(1, [3]), (2, [1, 2])] : List (Nat × List Nat)) = []) ∧
      (∀ fid, res.1 = some fid →
        (∃ ts, (fid, ts) ∈ ([(1, [3]), (2, [1, 2])] : List (Nat × List Nat)) ∧
          (if groupA ⟨7, 2, 10, 2, [(1, [3]), (2, [1, 2])], []⟩ = [] then
            2 ≤ ts.length ∧ ∀ g ∈ ([(1, [3]), (2, [1, 2])] : List (Nat × List Nat)),
              findKthPreviousTimestamp ts 2 ≤ findKthPreviousTimestamp g.2 2
          else
            ts.length < 2 ∧
              ∀ g ∈ groupA ⟨7, 2, 10, 2, [(1, [3]), (2, [1, 2])], []⟩,
                ts.headD 0 ≤ g.2.headD 0)) ∧
        lookupFrame res.2.frameMap fid = none ∧
        (∀ g, g ≠ fid →
          lookupFrame res.2.frameMap g =
            lookupFrame [(1, [3]), (2, [1, 2])] g) ∧
        res.2.currSize = 2 - 1) :=
  lruk_evict_correct ⟨7, 2, 10, 2, [(1, [3]), (2, [1, 2])], []⟩
    (by decide) (by decide) (by decide) (by decide)

/-- C10: RecordAccess on a frame id at most num_frames that the
replacer is not tracking creates the frame directly in the evictable
map: Size grows by one, the new history holds the fresh timestamp, and
if the replacer previously had no evictable frame, an immediate Evict
with no intervening SetEvictable returns exactly this frame. -/
theorem lruk_recordAccess_new_frame_evictable (r : LRUKReplacer) (fid : Nat)
    (hfid : fid ≤ r.replacerSize)
    (hab : lookupFrame r.frameMap fid = none)
    (hnab : lookupFrame r.nonEvictFrames fid = none) :
    ∃ r2, recordAccess r fid = some r2 ∧
      r2.size = r.size + 1 ∧
      lookupFrame r2.frameMap fid = some [r.currentTimestamp + 1] ∧
      (r.frameMap = [] → ∃ r3, evict r2 = some (some fid, r3)) := by
  refine ⟨{ r with
      currentTimestamp := r.currentTimestamp + 1, currSize := r.currSize + 1
      frameMap := appendTs (insertSorted r.frameMap (fid, []))
        fid (r.currentTimestamp + 1) }, ?_, rfl, ?_, ?_⟩
  · unfold recordAccess
    rw [if_neg (by omega)]
    rw [if_pos (by simp [hab, hnab])]
  · exact lookup_appendTs_self _ _ _ []
      (lookup_insertSorted_self r.frameMap fid [] hab)
  · intro h0
    rw [h0]
    have hfm2 : appendTs (insertSorted [] (fid, [])) fid (r.currentTimestamp + 1) =
        [(fid, [r.currentTimestamp + 1])] := by
      simp [insertSorted, appendTs]
    rw [hfm2]
    have hkth : findKthPreviousTimestamp [r.currentTimestamp + 1] r.k =
        if 1 < r.k then 0 else r.currentTimestamp + 1 := by
      unfold findKthPreviousTimestamp
      rw [List.reverse_singleton]
      by_cases hk : 1 < r.k
      · rw [if_pos hk, List.getD_eq_getElem?_getD,
          List.getElem?_eq_none (by simp; omega)]
        rfl
      · rw [if_neg hk]
        have h2 : r.k - 1 = 0 := by omega
        rw [h2]
        rfl
    refine ⟨{ r with
        currentTimestamp := r.currentTimestamp + 1 + 1
        currSize := r.currSize + 1 - 1
        frameMap := eraseFrame [(fid, [r.currentTimestamp + 1])] fid }, ?_⟩
    by_cases hk : 1 < r.k
    · simp only [evict, findEvictFrame, List.foldl_cons, List.foldl_nil, evictScanBody]
      norm_num [hk]
    · simp only [evict, findEvictFrame, List.foldl_cons, List.foldl_nil, evictScanBody,
        hkth, if_neg hk]
      norm_num [hk]

theorem lruk_recordAccess_new_frame_evictable_witness :
    ∃ r2, recordAccess ⟨5, 2, 0, 0, [], []⟩ 3 = some r2 ∧
      r2.size = size ⟨5, 2, 0, 0, [], []⟩ + 1 ∧
      lookupFrame r2.frameMap 3 = some [0 + 1] ∧
      (([] : List (Nat × List Nat)) = [] → ∃ r3, evict r2 = some (some 3, r3)) :=
  lruk_recordAccess_new_frame_evictable ⟨5, 2, 0, 0, [], []⟩ 3
    (by decide) (by decide) (by decide)

end LRUKReplacer

/-! ### Buffer pool manager claims C6, C9 -/
theorem getD_mem {α : Type} (l : List α) (i : Nat) (d : α) (h : i < l.length) :
    l.getD i d ∈ l := by
  rw [List.getD_eq_getElem?_getD, List.getElem?_eq_getElem h]
  exact List.getElem_mem _

namespace ExtendibleHashTable

theorem find?_eraseFirst_self (l : List (Nat × Nat)) (key : Nat)
    (h : (l.map Prod.fst).Nodup) :
    (Bucket.eraseFirst l key).find? (fun e => e.1 == key) = none := by
  induction l with
  | nil => rfl
  | cons x xs ih =>
    simp only [List.map_cons, List.nodup_cons] at h
    unfold Bucket.eraseFirst
    by_cases hx : x.1 = key
    · rw [if_pos (by simpa using hx)]
      subst hx
      rw [List.find?_eq_none]
      intro e he hbe
      exact h.1 (List.mem_map.mpr ⟨e, he, (Nat.beq_eq ..).mp (by simpa using hbe)⟩)
    · rw [if_neg (by simpa using hx)]
      rw [List.find?_cons_of_neg _ (by simpa using hx)]
      exact ih h.2

theorem bucket_find_remove_self (b : Bucket) (key : Nat)
    (h : (b.items.map Prod.fst).Nodup) :
    ((b.remove key).2).find key = none := by
  unfold Bucket.remove
  by_cases hany : b.items.any (fun e => e.1 == key)
  · rw [if_pos hany]
    unfold Bucket.find
    rw [find?_eraseFirst_self _ _ h]
    rfl
  · rw [if_neg hany]
    unfold Bucket.find
    rw [List.find?_eq_none.mpr]
    · rfl
    · intro e he hbe
      exact hany (List.any_eq_true.mpr ⟨e, he, hbe⟩)

theorem find_mem_entries (t : ExtendibleHashTable) (key v : Nat) (hwf : ehtWF t)
    (h : t.find key = some v) : (key, v) ∈ entries t := by
  obtain ⟨h1, h2, h3⟩ := hwf
  unfold find at h
  have hidx : t.indexOf key < t.dir.length := by
    rw [h1]
    exact Nat.mod_lt _ (Nat.pos_pow_of_pos _ (by norm_num))
  have hbid : t.bidAt (t.indexOf key) < t.store.length :=
    h2 _ (getD_mem _ _ _ hidx)
  have hbmem : t.bucketAt (t.indexOf key) ∈ t.store := getD_mem _ _ _ hbid
  unfold Bucket.find at h
  obtain ⟨e, he1, he2⟩ := Option.map_eq_some'.mp h
  have hemem := List.mem_of_find?_eq_some he1
  have hekey : e.1 = key := (Nat.beq_eq ..).mp (by simpa using List.find?_some he1)
  have : e = (key, v) := by
    obtain ⟨a, b2⟩ := e
    simp only at hekey he2
    rw [hekey, he2]
  rw [this] at hemem
  unfold entries
  exact List.mem_flatten.mpr ⟨(t.bucketAt (t.indexOf key)).items,
    List.mem_map.mpr ⟨_, hbmem, rfl⟩, hemem⟩

theorem find_after_remove (t : ExtendibleHashTable) (key : Nat) (hwf : ehtWF t) :
    ((t.remove key).2).find key = none := by
  obtain ⟨h1, h2, h3⟩ := hwf
  have hidx : t.indexOf key < t.dir.length := by
    rw [h1]
    exact Nat.mod_lt _ (Nat.pos_pow_of_pos _ (by norm_num))
  have hbid : t.bidAt (t.indexOf key) < t.store.length :=
    h2 _ (getD_mem _ _ _ hidx)
  have hbmem : t.bucketAt (t.indexOf key) ∈ t.store := getD_mem _ _ _ hbid
  have hstep : ((t.remove key).2).find key =
      ((t.store.set (t.bidAt (t.indexOf key))
        ((t.bucketAt (t.indexOf key)).remove key).2).getD
          (t.bidAt (t.indexOf key)) defaultBucket).find key := rfl
  rw [hstep, getD_set_self _ _ _ _ hbid]
  exact bucket_find_remove_self _ _ (h3 _ hbmem)

end ExtendibleHashTable

namespace BufferPoolManagerInstance

/-- C9: DeletePgImp returns true when the page id is not resident;
returns false and leaves the whole state unchanged when the page is
resident and pinned; and when the page is resident with pin count zero
it removes the id from the replacer and the page table, pushes the
frame onto the free list, zeroes the frame, records the deallocation of
the PageId and returns true, leaving the next-page-id counter alone. -/
theorem bpm_deletePage_spec (b : BufferPoolManagerInstance) (pid : Nat) (hwf : wf b) :
    (ExtendibleHashTable.find b.pageTable pid = none → deletePage b pid = some (true, b)) ∧
    (∀ fid, ExtendibleHashTable.find b.pageTable pid = some fid →
      (b.pages.getD fid resetPage).pinCount ≠ 0 → deletePage b pid = some (false, b)) ∧
    (∀ fid, ExtendibleHashTable.find b.pageTable pid = some fid →
      (b.pages.getD fid resetPage).pinCount = 0 →
      ∃ b2, deletePage b pid = some (true, b2) ∧
        ExtendibleHashTable.find b2.pageTable pid = none ∧
        LRUKReplacer.lookupFrame b2.replacer.frameMap fid = none ∧
        LRUKReplacer.lookupFrame b2.replacer.nonEvictFrames fid = none ∧
        b2.freeList = b.freeList ++ [fid] ∧
        b2.pages.getD fid resetPage = resetPage ∧
        b2.deallocated = b.deallocated ++ [pid] ∧
        b2.nextPageId = b.nextPageId) := by
  obtain ⟨hwf1, hwf2, hwf3⟩ := hwf
  refine ⟨?_, ?_, ?_⟩
  · intro h
    simp [deletePage, h]
  · intro fid hf hpin
    simp only [deletePage, hf]
    rw [if_pos hpin]
  · intro fid hf hpin
    have hent := ExtendibleHashTable.find_mem_entries _ _ _ hwf1 hf
    obtain ⟨hlt, hle, hz, -⟩ := hwf2 _ hent
    have hnone := hz hpin
    have hfind2 := ExtendibleHashTable.find_after_remove b.pageTable pid hwf1
    by_cases hfm : (LRUKReplacer.lookupFrame b.replacer.frameMap fid).isSome
    · have hrm : LRUKReplacer.removeFrame b.replacer fid = some
          { b.replacer with
            currentTimestamp := b.replacer.currentTimestamp + 1
            frameMap := LRUKReplacer.eraseFrame b.replacer.frameMap fid
            currSize := b.replacer.currSize - 1 } := by
        unfold LRUKReplacer.removeFrame
        rw [if_neg (by omega), if_neg (by simp [hnone]), if_pos hfm]
      refine ⟨{ b with
          replacer := { b.replacer with
            currentTimestamp := b.replacer.currentTimestamp + 1
            frameMap := LRUKReplacer.eraseFrame b.replacer.frameMap fid
            currSize := b.replacer.currSize - 1 }
          pageTable := (ExtendibleHashTable.remove b.pageTable pid).2
          freeList := b.freeList ++ [fid]
          pages := b.pages.set fid resetPage
          deallocated := b.deallocated ++ [pid] }, ?_, ?_, ?_, ?_, rfl, ?_, rfl, rfl⟩
      · simp only [deletePage, hf]
        rw [if_neg (by rw [hpin]; simp), hrm]
        rfl
      · exact hfind2
      · exact LRUKReplacer.lookup_erase_self _ _ hwf3
      · exact hnone
      · exact ExtendibleHashTable.getD_set_self _ _ _ _ hlt
    · have hrm : LRUKReplacer.removeFrame b.replacer fid = some
          { b.replacer with currentTimestamp := b.replacer.currentTimestamp + 1 } := by
        unfold LRUKReplacer.removeFrame
        rw [if_neg (by omega), if_neg (by simp [hnone]), if_neg hfm]
      refine ⟨{ b with
          replacer := { b.replacer with
            currentTimestamp := b.replacer.currentTimestamp + 1 }
          pageTable := (ExtendibleHashTable.remove b.pageTable pid).2
          freeList := b.freeList ++ [fid]
          pages := b.pages.set fid resetPage
          deallocated := b.deallocated ++ [pid] }, ?_, ?_, ?_, ?_, rfl, ?_, rfl, rfl⟩
      · simp only [deletePage, hf]
        rw [if_neg (by rw [hpin]; simp), hrm]
        rfl
      · exact hfind2
      · simpa using Option.not_isSome_iff_eq_none.mp hfm
      · exact hnone
      · exact ExtendibleHashTable.getD_set_self _ _ _ _ hlt

theorem bpm_deletePage_spec_witness :
    ∃ b2, deletePage bpmDemo 7 = some (true, b2) ∧
      ExtendibleHashTable.find b2.pageTable 7 = none ∧
      LRUKReplacer.lookupFrame b2.replacer.frameMap 0 = none ∧
      LRUKReplacer.lookupFrame b2.replacer.nonEvictFrames 0 = none ∧
      b2.freeList = bpmDemo.freeList ++ [0] ∧
      b2.pages.getD 0 resetPage = resetPage ∧
      b2.deallocated = bpmDemo.deallocated ++ [7] ∧
      b2.nextPageId = bpmDemo.nextPageId :=
  (bpm_deletePage_spec bpmDemo 7 (by decide)).2.2 0 (by decide) (by decide)

/-- C6 counterexample: UnpinPage(5, true) on a clean page with pin
count 1 returns true, but the frame's dirty flag afterwards is false,
not the OR of its previous value and is_dirty (false OR true = true):
when the pin count reaches zero the code flushes the page and clears
the flag.  This refutes the dirty-flag clause of the claim as stated. -/
theorem bpm_unpin_dirty_cleared_at_zero :
    ∃ res, unpinPage bpmDirtyDemo 5 true = some res ∧ res.1 = true ∧
      (res.2.pages.getD 0 resetPage).isDirty = false ∧
      ((bpmDirtyDemo.pages.getD 0 resetPage).isDirty || true) = true ∧
      res.2.disk = [(5, 9)] := by
  refine ⟨_, rfl, rfl, rfl, rfl, rfl⟩

theorem lookup_insertSorted_isSome (l : List (Nat × List Nat)) (fid : Nat)
    (tsl : List Nat) :
    (LRUKReplacer.lookupFrame (LRUKReplacer.insertSorted l (fid, tsl)) fid).isSome = true := by
  induction l with
  | nil => simp [LRUKReplacer.insertSorted, LRUKReplacer.lookupFrame]
  | cons x xs ih =>
    unfold LRUKReplacer.insertSorted
    by_cases hx : fid < x.1
    · rw [if_pos hx]
      simp [LRUKReplacer.lookupFrame]
    · rw [if_neg hx]
      unfold LRUKReplacer.lookupFrame
      by_cases he : x.1 = fid
      · rw [List.find?_cons_of_pos _ (by simpa using he)]
        rfl
      · rw [List.find?_cons_of_neg _ (by simpa using he)]
        exact ih

/-- C6 amended: UnpinPgImp returns false when the page id is not
resident or the frame's pin count is zero; otherwise it returns true
and decrements the pin count.  While the pin count stays positive the
dirty flag becomes the OR of its previous value and is_dirty and the
replacer is untouched; when the pin count reaches zero the frame is
marked evictable in the replacer and, if that OR is set, the page is
written to disk and the dirty flag cleared, so the flag ends false. -/
theorem bpm_unpinPage_spec (b : BufferPoolManagerInstance) (pid : Nat) (d : Bool)
    (hwf : wf b) :
    (ExtendibleHashTable.find b.pageTable pid = none → unpinPage b pid d = some (false, b)) ∧
    (∀ fid, ExtendibleHashTable.find b.pageTable pid = some fid →
      (b.pages.getD fid resetPage).pinCount = 0 → unpinPage b pid d = some (false, b)) ∧
    (∀ fid, ExtendibleHashTable.find b.pageTable pid = some fid →
      (b.pages.getD fid resetPage).pinCount ≠ 0 →
      ∃ b2, unpinPage b pid d = some (true, b2) ∧
        (b2.pages.getD fid resetPage).pinCount = (b.pages.getD fid resetPage).pinCount - 1 ∧
        ((b.pages.getD fid resetPage).pinCount - 1 ≠ 0 →
          b2.replacer = b.replacer ∧ b2.disk = b.disk ∧
          (b2.pages.getD fid resetPage).isDirty =
            ((b.pages.getD fid resetPage).isDirty || d)) ∧
        ((b.pages.getD fid resetPage).pinCount - 1 = 0 →
          (LRUKReplacer.lookupFrame b2.replacer.frameMap fid).isSome = true ∧
          (b2.pages.getD fid resetPage).isDirty = false ∧
          b2.disk = (if (b.pages.getD fid resetPage).isDirty || d then
            b.disk ++ [(pid, (b.pages.getD fid resetPage).data)] else b.disk))) := by
  obtain ⟨hwf1, hwf2, hwf3⟩ := hwf
  refine ⟨?_, ?_, ?_⟩
  · intro h
    simp only [unpinPage, h]
  · intro fid hf hpin
    simp only [unpinPage, hf]
    rw [if_pos hpin]
  · intro fid hf hpin
    have hent := ExtendibleHashTable.find_mem_entries _ _ _ hwf1 hf
    obtain ⟨hlt, hle, -, hsome⟩ := hwf2 _ hent
    have hsome2 := hsome hpin
    by_cases hz : (b.pages.getD fid resetPage).pinCount - 1 = 0
    · -- the pin count reaches zero: SetEvictable then flush-if-dirty
      have hse : LRUKReplacer.setEvictable b.replacer fid true = some
          { b.replacer with
            currentTimestamp := b.replacer.currentTimestamp + 1
            frameMap := LRUKReplacer.insertSorted b.replacer.frameMap
              (fid, (LRUKReplacer.lookupFrame b.replacer.nonEvictFrames fid).getD [])
            nonEvictFrames := LRUKReplacer.eraseFrame b.replacer.nonEvictFrames fid
            currSize := b.replacer.currSize + 1 } := by
        unfold LRUKReplacer.setEvictable
        rw [if_neg (by omega), if_neg (by simp), if_pos (by simp [hsome2])]
      by_cases hd : (b.pages.getD fid resetPage).isDirty || d
      · refine ⟨{ b with
            pages := b.pages.set fid
              { b.pages.getD fid resetPage with
                isDirty := false
                pinCount := (b.pages.getD fid resetPage).pinCount - 1 }
            replacer := { b.replacer with
              currentTimestamp := b.replacer.currentTimestamp + 1
              frameMap := LRUKReplacer.insertSorted b.replacer.frameMap
                (fid, (LRUKReplacer.lookupFrame b.replacer.nonEvictFrames fid).getD [])
              nonEvictFrames := LRUKReplacer.eraseFrame b.replacer.nonEvictFrames fid
              currSize := b.replacer.currSize + 1 }
            disk := b.disk ++ [(pid, (b.pages.getD fid resetPage).data)] }, ?_, ?_, ?_, ?_⟩
        · simp only [unpinPage, hf]
          rw [if_neg hpin, if_pos hz, hse]
          dsimp only [Option.map]
          rw [if_pos hd]
        · dsimp only
          rw [ExtendibleHashTable.getD_set_self _ _ _ _ hlt]
        · intro hc
          exact absurd hz hc
        · intro _
          dsimp only
          refine ⟨lookup_insertSorted_isSome _ _ _, ?_, ?_⟩
          · rw [ExtendibleHashTable.getD_set_self _ _ _ _ hlt]
          · rw [if_pos hd]
      · refine ⟨{ b with
            pages := b.pages.set fid
              { b.pages.getD fid resetPage with
                isDirty := (b.pages.getD fid resetPage).isDirty || d
                pinCount := (b.pages.getD fid resetPage).pinCount - 1 }
            replacer := { b.replacer with
              currentTimestamp := b.replacer.currentTimestamp + 1
              frameMap := LRUKReplacer.insertSorted b.replacer.frameMap
                (fid, (LRUKReplacer.lookupFrame b.replacer.nonEvictFrames fid).getD [])
              nonEvictFrames := LRUKReplacer.eraseFrame b.replacer.nonEvictFrames fid
              currSize := b.replacer.currSize + 1 } }, ?_, ?_, ?_, ?_⟩
        · simp only [unpinPage, hf]
          rw [if_neg hpin, if_pos hz, hse]
          dsimp only [Option.map]
          rw [if_neg hd]
        · dsimp only
          rw [ExtendibleHashTable.getD_set_self _ _ _ _ hlt]
        · intro hc
          exact absurd hz hc
        · intro _
          dsimp only
          refine ⟨lookup_insertSorted_isSome _ _ _, ?_, ?_⟩
          · rw [ExtendibleHashTable.getD_set_self _ _ _ _ hlt]
            simpa using hd
          · rw [if_neg (by simpa using hd)]
    · -- the pin count stays positive: only the page record changes
      refine ⟨{ b with
          pages := b.pages.set fid
            { b.pages.getD fid resetPage with
              isDirty := (b.pages.getD fid resetPage).isDirty || d
              pinCount := (b.pages.getD fid resetPage).pinCount - 1 } }, ?_, ?_, ?_, ?_⟩
      · simp only [unpinPage, hf]
        rw [if_neg hpin, if_neg hz]
      · dsimp only
        rw [ExtendibleHashTable.getD_set_self _ _ _ _ hlt]
      · intro _
        dsimp only
        refine ⟨rfl, rfl, ?_⟩
        rw [ExtendibleHashTable.getD_set_self _ _ _ _ hlt]
      · intro hc
        exact absurd hc hz

theorem bpm_unpinPage_spec_witness :
    ∃ b2, unpinPage bpmDirtyDemo 5 true = some (true, b2) ∧
      (b2.pages.getD 0 resetPage).pinCount =
        (bpmDirtyDemo.pages.getD 0 resetPage).pinCount - 1 ∧
      ((bpmDirtyDemo.pages.getD 0 resetPage).pinCount - 1 ≠ 0 →
        b2.replacer = bpmDirtyDemo.replacer ∧ b2.disk = bpmDirtyDemo.disk ∧
        (b2.pages.getD 0 resetPage).isDirty =
          ((bpmDirtyDemo.pages.getD 0 resetPage).isDirty || true)) ∧
      ((bpmDirtyDemo.pages.getD 0 resetPage).pinCount - 1 = 0 →
        (LRUKReplacer.lookupFrame b2.replacer.frameMap 0).isSome = true ∧
        (b2.pages.getD 0 resetPage).isDirty = false ∧
        b2.disk = (if (bpmDirtyDemo.pages.getD 0 resetPage).isDirty || true then
          bpmDirtyDemo.disk ++ [(5, (bpmDirtyDemo.pages.getD 0 resetPage).data)]
          else bpmDirtyDemo.disk)) :=
  (bpm_unpinPage_spec bpmDirtyDemo 5 true (by decide)).2.2 0 (by decide) (by decide)

end BufferPoolManagerInstance

namespace BPlusTree

/-! ### B+ tree store and state lemmas -/
theorem find?_storeWrite_self (s : List (Int × BPTPage)) (pid : Int) (pg : BPTPage) :
    (storeWrite s pid pg).find? (fun e => e.1 == pid) = some (pid, pg) := by
  induction s with
  | nil => simp [storeWrite]
  | cons e es ih =>
    by_cases h : e.1 = pid
    · simp [storeWrite, h]
    · have hb : (e.1 == pid) = false := by simpa using h
      simp [storeWrite, hb, ih]

theorem find?_storeWrite_ne (s : List (Int × BPTPage)) (pid q : Int) (pg : BPTPage)
    (h : q ≠ pid) :
    (storeWrite s pid pg).find? (fun e => e.1 == q) = s.find? (fun e => e.1 == q) := by
  have hpq : (pid == q) = false := by simpa using (Ne.symm h)
  induction s with
  | nil => simp [storeWrite, hpq]
  | cons e es ih =>
    by_cases he : e.1 = pid
    · have heq : (e.1 == q) = false := by simp [he, hpq]
      simp [storeWrite, he, hpq, heq]
    · have hb : (e.1 == pid) = false := by simpa using he
      by_cases hq : e.1 = q
      · have hbq : (e.1 == q) = true := by simpa using hq
        simp [storeWrite, hb, hbq]
      · have hbq : (e.1 == q) = false := by simpa using hq
        simp [storeWrite, hb, hbq, ih]

theorem getPage_writePage_self (t : TreeState) (pid : Int) (pg : BPTPage) :
    getPage (writePage t pid pg) pid = some pg := by
  simp [getPage, writePage, find?_storeWrite_self]

theorem getPage_writePage_ne (t : TreeState) (pid q : Int) (pg : BPTPage) (h : q ≠ pid) :
    getPage (writePage t pid pg) q = getPage t q := by
  simp [getPage, writePage, find?_storeWrite_ne _ _ _ _ h]

theorem getPage_fetchPage (t : TreeState) (p q : Int) :
    getPage (fetchPage t p) q = getPage t q := rfl

theorem getPage_unpinPage (t : TreeState) (p q : Int) :
    getPage (unpinPage t p) q = getPage t q := by
  unfold unpinPage; split <;> rfl

theorem getPage_newPage (t : TreeState) (q : Int) :
    getPage (newPage t).2 q = getPage t q := rfl

theorem getPage_eq_of_store (t t' : TreeState) (q : Int) (h : t'.store = t.store) :
    getPage t' q = getPage t q := by
  unfold getPage; rw [h]

theorem unpinPage_nextPageId (t : TreeState) (p : Int) :
    (unpinPage t p).nextPageId = t.nextPageId := by
  unfold unpinPage; split <;> rfl

theorem unpinPage_store (t : TreeState) (p : Int) :
    (unpinPage t p).store = t.store := by
  unfold unpinPage; split <;> rfl

theorem unpinPage_rootPageId (t : TreeState) (p : Int) :
    (unpinPage t p).rootPageId = t.rootPageId := by
  unfold unpinPage; split <;> rfl

theorem unpinPage_leafMaxSize (t : TreeState) (p : Int) :
    (unpinPage t p).leafMaxSize = t.leafMaxSize := by
  unfold unpinPage; split <;> rfl

theorem unpinPage_internalMaxSize (t : TreeState) (p : Int) :
    (unpinPage t p).internalMaxSize = t.internalMaxSize := by
  unfold unpinPage; split <;> rfl

theorem writePage_nextPageId (t : TreeState) (p : Int) (pg : BPTPage) :
    (writePage t p pg).nextPageId = t.nextPageId := rfl

theorem fetchPage_nextPageId (t : TreeState) (p : Int) :
    (fetchPage t p).nextPageId = t.nextPageId := rfl

theorem insertInLeaf_size (l : LeafNode) (k : Int) (v : Nat) :
    (insertInLeaf l k v).size = l.size + 1 := rfl

theorem insertInLeaf_pageId (l : LeafNode) (k : Int) (v : Nat) :
    (insertInLeaf l k v).pageId = l.pageId := rfl

theorem insertInLeaf_parentPageId (l : LeafNode) (k : Int) (v : Nat) :
    (insertInLeaf l k v).parentPageId = l.parentPageId := rfl

theorem insertInLeaf_nextPageId (l : LeafNode) (k : Int) (v : Nat) :
    (insertInLeaf l k v).nextPageId = l.nextPageId := rfl

theorem insertInNonLeaf_size (n : InternalNode) (k v : Int) :
    (insertInNonLeaf n k v).size = n.size := rfl

theorem insertInNonLeaf_maxSize (n : InternalNode) (k v : Int) :
    (insertInNonLeaf n k v).maxSize = n.maxSize := rfl

/-- the descent loop changes only the pin table -/
theorem getLeafPageLoop_core : ∀ (fuel : Nat) (t : TreeState) (key pid lid : Int)
    (t1 : TreeState), getLeafPageLoop fuel t key pid = some (lid, t1) →
    t1.store = t.store ∧ t1.rootPageId = t.rootPageId ∧ t1.leafMaxSize = t.leafMaxSize ∧
    t1.internalMaxSize = t.internalMaxSize ∧ t1.nextPageId = t.nextPageId := by
  intro fuel
  induction fuel with
  | zero =>
    intro t key pid lid t1 h
    exact absurd h (by simp [getLeafPageLoop])
  | succ n ih =>
    intro t key pid lid t1 h
    simp only [getLeafPageLoop] at h
    cases hpg : getPage t pid with
    | none => rw [hpg] at h; exact absurd h (by simp)
    | some pg =>
      rw [hpg] at h
      cases pg with
      | leaf l =>
        simp only [Option.some.injEq, Prod.mk.injEq] at h
        rw [← h.2]
        exact ⟨rfl, rfl, rfl, rfl, rfl⟩
      | internal nd =>
        simp only at h
        cases hf : findChildIndex nd.entries nd.size key with
        | none => rw [hf] at h; exact ih t key pid lid t1 h
        | some i =>
          rw [hf] at h
          simp only at h
          have := ih _ key _ lid t1 h
          refine ⟨?_, ?_, ?_, ?_, ?_⟩
          · rw [this.1]; exact unpinPage_store t pid
          · rw [this.2.1]; exact unpinPage_rootPageId t pid
          · rw [this.2.2.1]; exact unpinPage_leafMaxSize t pid
          · rw [this.2.2.2.1]; exact unpinPage_internalMaxSize t pid
          · rw [this.2.2.2.2]; exact unpinPage_nextPageId t pid

theorem getLeafPage_core (fuel : Nat) (t : TreeState) (key lid : Int) (t1 : TreeState)
    (h : getLeafPage fuel t key = some (lid, t1)) :
    t1.store = t.store ∧ t1.rootPageId = t.rootPageId ∧ t1.leafMaxSize = t.leafMaxSize ∧
    t1.internalMaxSize = t.internalMaxSize ∧ t1.nextPageId = t.nextPageId :=
  getLeafPageLoop_core fuel (fetchPage t t.rootPageId) key t.rootPageId lid t1 h

theorem copyRange_length {α : Type} (d : α) (dst src : List α) (dstOff srcOff n : Nat) :
    (copyRange d dst src dstOff srcOff n).length = dst.length := by
  induction n with
  | zero => rfl
  | succ m ih =>
    simp only [copyRange] at *
    rw [List.range_succ, List.foldl_append]
    simp only [List.foldl_cons, List.foldl_nil, List.length_set]
    exact ih

theorem copyRange_getD {α : Type} (d : α) (dst src : List α) (srcOff n j : Nat)
    (hj : j < n) (hlen : j < dst.length) :
    (copyRange d dst src 0 srcOff n).getD j d = src.getD (srcOff + j) d := by
  induction n with
  | zero => omega
  | succ m ih =>
    simp only [copyRange, Nat.zero_add] at *
    rw [List.range_succ, List.foldl_append]
    simp only [List.foldl_cons, List.foldl_nil]
    rcases Nat.lt_or_ge j m with hlt | hge
    · rw [getD_set_ne _ _ _ _ _ (by omega)]
      exact ih hlt
    · have hjm : j = m := by omega
      subst hjm
      have hlenf : ((List.range j).foldl
          (fun acc i => acc.set i (src.getD (srcOff + i) d)) dst).length = dst.length := by
        have := copyRange_length d dst src 0 srcOff j
        simpa [copyRange, Nat.zero_add] using this
      rw [ExtendibleHashTable.getD_set_self _ _ _ _ (by rw [hlenf]; exact hlen)]

/-! ### B+ tree claims C1 and C4 -/
/-- **C1**: the claim says Remove of an absent key is a silent no-op.
In the code, RemoveEntryInLeaf runs SetSize(--sz) even when the scan
found no match, so removing the absent key 2 from the one-entry root
leaf drops its size from 1 to 0 and the entry (1, 100) disappears:
GetValue(1) finds it before the call and misses it after. -/
theorem bpt_remove_absent_key_not_noop :
    (∃ r, getValue 4 demoTree 2 = some r ∧ r.1 = false) ∧
    (∃ r, getValue 4 demoTree 1 = some r ∧ r.1 = true ∧ r.2.1 = [100]) ∧
    ∃ t', remove 4 demoTree 2 = some t' ∧
      (∃ l0, getPage demoTree 1 = some (BPTPage.leaf l0) ∧ l0.size = 1) ∧
      (∃ l', getPage t' 1 = some (BPTPage.leaf l') ∧ l'.size = 0) ∧
      (∃ r, getValue 4 t' 1 = some r ∧ r.1 = false ∧ r.2.1 = []) := by
  exact ⟨⟨_, rfl, rfl⟩, ⟨_, rfl, rfl, rfl⟩, _, rfl, ⟨_, rfl, rfl⟩, ⟨_, rfl, rfl⟩,
    ⟨_, rfl, rfl, rfl⟩⟩

/-- **C4**: the claim says every fetched page is unpinned exactly once,
so pin counts return to their pre-call values.  In the code, GetLeafPage
returns with the leaf still pinned, GetValue fetches the same leaf a
second time and unpins it only once, so a GetValue on the one-leaf tree
leaves the leaf's pin count at 1 instead of 0. -/
theorem bpt_getValue_pin_not_restored :
    pinOf demoTree 1 = 0 ∧
    ∃ r, getValue 4 demoTree 1 = some r ∧ r.1 = true ∧ pinOf r.2.2 1 = 1 := by
  exact ⟨rfl, _, rfl, rfl, rfl⟩

/-! ### B+ tree insert split (C7) -/
/-- InsertInParent on a page whose parent exists and stays below its
max size after the separator insert: the parent gets the new separator
and a size bump, the right page is re-parented, parent pinned and
unpinned once -/
theorem insertInParent_nonfull
    (fu : Nat) (s : TreeState) (leftId rightId P : Int) (k : Int)
    (pg rpg : BPTPage) (pn : InternalNode)
    (hpg : getPage s leftId = some pg)
    (hP : parentIdOf pg = P)
    (hroot : ¬pageIdOf pg = P)
    (hpn : getPage s P = some (BPTPage.internal pn))
    (hfull : ¬(insertInNonLeaf pn k rightId).size = (insertInNonLeaf pn k rightId).maxSize)
    (hr : getPage s rightId = some rpg)
    (hrne : rightId ≠ P) :
    insertInParent (fu + 1) s leftId rightId k =
      some (unpinPage
        (writePage
          (writePage
            (writePage (fetchPage s P) P
              (BPTPage.internal (insertInNonLeaf pn k rightId)))
            P
            (BPTPage.internal
              { insertInNonLeaf pn k rightId with
                  size := (insertInNonLeaf pn k rightId).size + 1 }))
          rightId (setParentPageId rpg P))
        P) := by
  simp only [insertInParent]
  rw [hpg]
  dsimp only
  rw [hP]
  rw [if_neg hroot]
  rw [getPage_fetchPage, hpn]
  dsimp only
  rw [if_pos hfull]
  rw [getPage_writePage_ne _ _ _ _ hrne, getPage_writePage_ne _ _ _ _ hrne,
    getPage_fetchPage, hr]

theorem newPage_fst (t : TreeState) : (newPage t).1 = t.nextPageId := rfl

theorem newPage_snd_nextPageId (t : TreeState) :
    (newPage t).2.nextPageId = t.nextPageId + 1 := rfl

theorem getPage_newPage_snd (t : TreeState) (q : Int) :
    getPage (newPage t).2 q = getPage t q := rfl

/-- **C7**: Insert splits the leaf exactly when its size reaches
leaf_max_size after the insertion.  Below the boundary the insert
returns with no allocation and no next-pointer write; at the boundary a
sibling leaf is allocated at the next page id, the old leaf keeps the
first ceil-half entries, the sibling receives the entries from position
middle on with the sizes middle and max - middle, and the two
SetNextPageId writes happen in the order: first the new leaf's next is
set to the old leaf's next, then the old leaf's next is set to the new
leaf.  Stated for a leaf reached by the descent whose parent is an
internal page that stays below its max size, with the scenario facts
(page ids fresh and distinct, key not present) as hypotheses. -/
theorem bpt_insert_splits_at_max
    (fuel : Nat) (t : TreeState) (key : Int) (value : Nat) (lid : Int) (t1 : TreeState)
    (l : LeafNode) (pn : InternalNode)
    (hfuel : 0 < fuel)
    (hroot : ¬t.rootPageId = -1)
    (hget : getLeafPage fuel t key = some (lid, t1))
    (hpg : getPage t lid = some (BPTPage.leaf l))
    (hpid : l.pageId = lid)
    (hdup : ((List.range l.size).any
      (fun i => comparator (l.entries.getD i (0, 0)).1 key == 0)) = false)
    (hparent : l.parentPageId ≠ lid)
    (hpn : getPage t l.parentPageId = some (BPTPage.internal pn))
    (hpnfull : ¬pn.size = pn.maxSize)
    (hfresh1 : t.nextPageId ≠ lid)
    (hfresh2 : t.nextPageId ≠ l.parentPageId) :
    (l.size + 1 < t.leafMaxSize →
      ∃ t', insert fuel t key value = some (t', true, []) ∧
        t'.nextPageId = t.nextPageId ∧
        getPage t' lid = some (BPTPage.leaf (insertInLeaf l key value))) ∧
    (l.size + 1 = t.leafMaxSize →
      ∃ t' nl,
        insert fuel t key value =
          some (t', true, [(t.nextPageId, l.nextPageId), (lid, t.nextPageId)]) ∧
        t'.nextPageId = t.nextPageId + 1 ∧
        getPage t' lid = some (BPTPage.leaf
          { insertInLeaf l key value with
              size := ceiling t.leafMaxSize, nextPageId := t.nextPageId }) ∧
        getPage t' t.nextPageId = some (BPTPage.leaf nl) ∧
        nl.size = t.leafMaxSize - ceiling t.leafMaxSize ∧
        nl.nextPageId = l.nextPageId ∧
        nl.parentPageId = l.parentPageId ∧
        (∀ j, j < t.leafMaxSize - ceiling t.leafMaxSize →
          nl.entries.getD j (0, 0) =
            (insertInLeaf l key value).entries.getD (ceiling t.leafMaxSize + j) (0, 0))) := by
  obtain ⟨fu, rfl⟩ : ∃ fu, fuel = fu + 1 := ⟨fuel - 1, by omega⟩
  obtain ⟨hst, hrt, hlm, him, hnx⟩ := getLeafPage_core _ _ _ _ _ hget
  have hpg1 : getPage t1 lid = some (BPTPage.leaf l) := by
    rw [getPage_eq_of_store _ _ _ hst]; exact hpg
  have hcond : ¬((List.range l.size).any
      (fun i => comparator (l.entries.getD i (0, 0)).1 key == 0) = true) := by
    rw [hdup]; exact Bool.false_ne_true
  constructor
  · intro hlt
    have hins : insert (fu + 1) t key value =
        some (unpinPage (writePage (fetchPage t1 lid) lid
          (BPTPage.leaf (insertInLeaf l key value))) lid, true, []) := by
      simp only [insert]
      rw [if_neg hroot, hget]
      dsimp only
      rw [getPage_fetchPage, hpg1]
      dsimp only
      rw [if_neg hcond]
      simp only [insertInLeaf_size]
      rw [if_neg (show ¬t.leafMaxSize ≤ l.size + 1 by omega)]
    refine ⟨_, hins, ?_, ?_⟩
    · rw [unpinPage_nextPageId, writePage_nextPageId, fetchPage_nextPageId, hnx]
    · rw [getPage_unpinPage, getPage_writePage_self]
  · intro heq
    simp only [insert]
    rw [if_neg hroot, hget]
    dsimp only
    rw [getPage_fetchPage, hpg1]
    dsimp only
    rw [if_neg hcond]
    simp only [insertInLeaf_size]
    rw [if_pos (show t.leafMaxSize ≤ l.size + 1 by omega)]
    simp only [newPage_fst, writePage_nextPageId, fetchPage_nextPageId, hnx,
      insertInLeaf_nextPageId]
    have hlidnid : lid ≠ t.nextPageId := Ne.symm hfresh1
    have hlidP : lid ≠ l.parentPageId := Ne.symm hparent
    have hIP := insertInParent_nonfull fu
      (writePage
        (writePage (newPage (writePage (fetchPage t1 lid) lid
            (BPTPage.leaf (insertInLeaf l key value)))).2 lid
          (BPTPage.leaf (leafSplitOld t.nextPageId t.leafMaxSize (insertInLeaf l key value))))
        t.nextPageId
        (BPTPage.leaf (leafSplitNew t.leafMaxSize t.nextPageId (insertInLeaf l key value))))
      lid t.nextPageId l.parentPageId
      (((leafSplitNew t.leafMaxSize t.nextPageId (insertInLeaf l key value)).entries.getD
        0 (0, 0)).1)
      (BPTPage.leaf (leafSplitOld t.nextPageId t.leafMaxSize (insertInLeaf l key value)))
      (BPTPage.leaf (leafSplitNew t.leafMaxSize t.nextPageId (insertInLeaf l key value)))
      pn
      (by rw [getPage_writePage_ne _ _ _ _ hlidnid, getPage_writePage_self])
      rfl
      (by dsimp only [pageIdOf, leafSplitOld]
          rw [show (insertInLeaf l key value).pageId = l.pageId from rfl, hpid]
          exact fun hh => hparent hh.symm)
      (by rw [getPage_writePage_ne _ _ _ _ (Ne.symm hfresh2),
            getPage_writePage_ne _ _ _ _ hparent,
            getPage_newPage_snd,
            getPage_writePage_ne _ _ _ _ hparent,
            getPage_fetchPage, getPage_eq_of_store _ _ _ hst]
          exact hpn)
      (by rw [insertInNonLeaf_size, insertInNonLeaf_maxSize]; exact hpnfull)
      (by rw [getPage_writePage_self])
      hfresh2
    rw [hIP]
    dsimp only
    refine ⟨_,
      { leafSplitNew t.leafMaxSize t.nextPageId (insertInLeaf l key value) with
          parentPageId := l.parentPageId },
      rfl, ?_, ?_, ?_, ?_, ?_, ?_, ?_⟩
    · simp only [unpinPage_nextPageId, writePage_nextPageId, fetchPage_nextPageId,
        newPage_snd_nextPageId, hnx]
    · rw [getPage_unpinPage, getPage_unpinPage, getPage_unpinPage,
        getPage_writePage_ne _ _ _ _ hlidnid,
        getPage_writePage_ne _ _ _ _ hlidP,
        getPage_writePage_ne _ _ _ _ hlidP,
        getPage_fetchPage,
        getPage_writePage_ne _ _ _ _ hlidnid,
        getPage_writePage_self]
      rfl
    · rw [getPage_unpinPage, getPage_unpinPage, getPage_unpinPage,
        getPage_writePage_self]
      rfl
    · rfl
    · exact insertInLeaf_nextPageId l key value
    · rfl
    · intro j hj
      dsimp only [leafSplitNew]
      rw [copyRange_getD _ _ _ _ _ _ hj
        (by rw [List.length_replicate]; omega)]

/-- the split boundary theorem applied to the concrete two-leaf tree:
inserting key 2 fills leaf 1 to its max size 3 and splits it -/
theorem bpt_insert_splits_at_max_witness :
    ∃ t' nl,
      insert 4 c7Tree 2 20 = some (t', true, [(3, 2), (1, 3)]) ∧
      t'.nextPageId = 4 ∧
      getPage t' 1 = some (BPTPage.leaf
        { insertInLeaf c7Leaf1 2 20 with size := 2, nextPageId := 3 }) ∧
      getPage t' 3 = some (BPTPage.leaf nl) ∧
      nl.size = 1 ∧ nl.nextPageId = 2 ∧ nl.parentPageId = 10 ∧
      nl.entries.getD 0 (0, 0) = (insertInLeaf c7Leaf1 2 20).entries.getD 2 (0, 0) := by
  obtain ⟨-, h2⟩ := bpt_insert_splits_at_max 4 c7Tree 2 20 1 c7Mid c7Leaf1 c7Root
    (by decide) (by decide) rfl rfl rfl (by decide) (by decide) rfl (by decide)
    (by decide) (by decide)
  obtain ⟨t', nl, hins, hnx, hlid, hnid, hszn, hnext, hpar, hmv⟩ := h2 (by decide)
  exact ⟨t', nl, hins, hnx, hlid, hnid, hszn, hnext, hpar, hmv 0 (by decide)⟩

end BPlusTree

end BusTub
